import Mathlib

/-!
Verification of the room/session core of `server/src/server.js`
(Collab-Canvas).  The server keeps a registry `rooms : Map roomId → Room`
where a `Room` holds a `users` map, an append-only `history`, an optional
saved canvas `state` and a `cursors` map; every socket carries the closure
variables `currentRoom` / `currentUsername` / `currentColor`.  We embed the
server as a state machine: JS `Map`s become association lists with the
`Map.set` / `Map.get` / `Map.delete` semantics, JS objects (the event
payloads and history entries) become key/value lists where a later binding
shadows an earlier one (the semantics of object literals with spread), and
each socket.io emit call becomes an explicit `Emit` value.
-/

/-- A JS value appearing in an event payload or a history entry. -/
inductive JVal where
  | str : String → JVal
  | num : Int → JVal
  | undef : JVal
  | nul : JVal
  deriving DecidableEq, Repr

/-- A JS object: ordered key/value bindings; a later binding for the same
key shadows an earlier one (object-literal / spread semantics). -/
abbrev Obj := List (String × JVal)

/-- Property lookup on a JS object: the *last* binding for the key wins,
as with `{a: 1, ...data}` literals. `none` models an absent property. -/
def Obj.get : Obj → String → Option JVal
  | [], _ => none
  | (k', v) :: rest, k =>
    match Obj.get rest k with
    | some w => some w
    | none => if k' = k then some v else none

/-- The keys of a JS object literal (in order of appearance). -/
def Obj.keys (o : Obj) : List String := o.map Prod.fst

/-- `undefined` for an absent property, as in `data.x` on a missing key. -/
def jValOrUndef : Option JVal → JVal
  | some v => v
  | none => JVal.undef

/-- A nullable JS string variable (`null` before first assignment). -/
def jOfOpt : Option String → JVal
  | some s => JVal.str s
  | none => JVal.nul

/-- `Map.get`: the value stored at a key, if any.  A JS `Map` holds at most
one entry per key, built only through `mapSet` / `mapDelete` below. -/
def mapGet {α : Type} : List (String × α) → String → Option α
  | [], _ => none
  | (k', v) :: rest, k => if k' = k then some v else mapGet rest k

/-- `Map.set`: replace the entry in place if the key is present (keeping
its position, as JS `Map.set` does), otherwise append at the end. -/
def mapSet {α : Type} : List (String × α) → String → α → List (String × α)
  | [], k, v => [(k, v)]
  | (k', v') :: rest, k, v =>
    if k' = k then (k, v) :: rest else (k', v') :: mapSet rest k v

/-- `Map.delete`: remove the entry for the key (keys are unique in a JS
`Map`, so removing every occurrence is the same as removing the one). -/
def mapDelete {α : Type} : List (String × α) → String → List (String × α)
  | [], _ => []
  | (k', v) :: rest, k =>
    if k' = k then mapDelete rest k else (k', v) :: mapDelete rest k

/-- The keys of a map. -/
def keysOf {α : Type} (l : List (String × α)) : List String := l.map Prod.fst

/-- A room member as stored by `room.users.set(socket.id, {username, color,
id: socket.id})` (server.js line 53). -/
structure Participant where
  username : String
  color : String
  id : String
  deriving DecidableEq, Repr

/-- A cursor record as built by the cursor-move handler (server.js lines
143-149): `{userId, username, color, x, y}`.  `username`/`color` mirror the
nullable closure variables. -/
structure Cursor where
  userId : String
  username : Option String
  color : Option String
  x : Int
  y : Int
  deriving DecidableEq, Repr

/-- A room (server.js lines 42-47): `{users, history, state, cursors}`;
`state` is the snapshot (`null` encoded as `none`). -/
structure Room where
  users : List (String × Participant)
  history : List Obj
  state : Option String
  cursors : List (String × Cursor)
  deriving DecidableEq, Repr

/-- The freshly initialized room of server.js lines 42-47. -/
def initRoom : Room := { users := [], history := [], state := none, cursors := [] }

/-- The per-connection closure state (server.js lines 27-29):
`currentRoom`, `currentUsername`, `currentColor`, all initially `null`. -/
structure Conn where
  currentRoom : Option String
  currentUsername : Option String
  currentColor : Option String
  deriving DecidableEq, Repr

/-- The whole broker: the `rooms` registry (line 22), the live connections
with their closure state, and the socket.io room membership maintained by
`socket.join` and automatic removal on disconnect. -/
structure ServerState where
  rooms : List (String × Room)
  conns : List (String × Conn)
  sio : List (String × List String)
  deriving DecidableEq, Repr

/-- The empty broker at startup. -/
def initState : ServerState := { rooms := [], conns := [], sio := [] }

/-- One socket.io emit call, one constructor per emit site in server.js. -/
inductive Emit where
  /-- `socket.emit('canvas-state', room.state)` (lines 57, 195). -/
  | canvasStateTo (sid : String) (blob : String)
  /-- `io.to(roomId).emit('users-update', userList)` (lines 62, 220). -/
  | usersUpdate (rid : String) (userList : List Participant)
  /-- `socket.emit('cursor-move', cursor)` — join-time replay (line 67). -/
  | cursorTo (sid : String) (c : Cursor)
  /-- `socket.to(room).emit('cursor-move', cursorData)` (line 155). -/
  | cursorPeers (rid sender : String) (c : Cursor)
  /-- `socket.to(currentRoom).emit('draw', data)` (line 90). -/
  | drawPeers (rid sender : String) (data : Obj)
  /-- `socket.to(currentRoom).emit('draw-text', data)` (line 110). -/
  | drawTextPeers (rid sender : String) (data : Obj)
  /-- `socket.to(currentRoom).emit('draw-image', data)` (line 133). -/
  | drawImagePeers (rid sender : String) (data : Obj)
  /-- `socket.to(currentRoom).emit('user-left', {userId})` (line 216). -/
  | userLeft (rid sender uid : String)
  /-- `io.to(currentRoom).emit('clear-canvas')` (line 170). -/
  | clearAll (rid : String)
  /-- the `ping` acknowledgement callback (line 201). -/
  | ackPing (sid : String)
  deriving DecidableEq, Repr

/-- The `currentRoom` closure variable of a connection in a connection
table, `none` if the connection is unjoined or unknown. -/
def connRoom (conns : List (String × Conn)) (sid : String) : Option String :=
  match mapGet conns sid with
  | some c => c.currentRoom
  | none => none

/-- The room the connection currently belongs to (`currentRoom`), `none`
if the connection is unjoined or unknown. -/
def currentRoomOf (s : ServerState) (sid : String) : Option String :=
  connRoom s.conns sid

/-- The connection's `currentUsername` closure variable. -/
def usernameOf (s : ServerState) (sid : String) : Option String :=
  match mapGet s.conns sid with
  | some c => c.currentUsername
  | none => none

/-- Connection `sid` is currently joined to room `r`. -/
def JoinedTo (s : ServerState) (sid r : String) : Prop :=
  currentRoomOf s sid = some r

instance (s : ServerState) (sid r : String) : Decidable (JoinedTo s sid r) := by
  unfold JoinedTo; infer_instance

/-- The room's history, `[]` if the room is absent. -/
def historyOf (s : ServerState) (r : String) : List Obj :=
  match mapGet s.rooms r with
  | some room => room.history
  | none => []

/-- The keys of the room's `users` map. -/
def usersKeysOf (s : ServerState) (r : String) : List String :=
  match mapGet s.rooms r with
  | some room => keysOf room.users
  | none => []

/-- The keys of the room's `cursors` map. -/
def cursorsKeysOf (s : ServerState) (r : String) : List String :=
  match mapGet s.rooms r with
  | some room => keysOf room.cursors
  | none => []

/-- The socket.io membership of room `r` (who a `socket.to(r)` /
`io.to(r)` broadcast reaches). -/
def sioMembers (s : ServerState) (r : String) : List String :=
  match mapGet s.sio r with
  | some ms => ms
  | none => []

/-- The history entry pushed by the `draw` handler (server.js lines
82-87): `{...data, timestamp, userId, username}`. -/
def drawEntry (data : Obj) (now : Int) (sid : String) (uname : Option String) : Obj :=
  data ++ [("timestamp", JVal.num now), ("userId", JVal.str sid),
           ("username", jOfOpt uname)]

/-- The history entry pushed by the `draw-text` handler (server.js lines
101-107): `{type: 'text', ...data, timestamp, userId, username}` — note
the spread comes *after* the tag, so a `type` key inside `data` shadows
the `'text'` tag. -/
def textEntry (data : Obj) (now : Int) (sid : String) (uname : Option String) : Obj :=
  ("type", JVal.str "text") ::
    (data ++ [("timestamp", JVal.num now), ("userId", JVal.str sid),
              ("username", jOfOpt uname)])

/-- The history entry pushed by the `draw-image` handler (server.js lines
121-130): only `type`, the bounding geometry, timestamp and attribution —
`data.imageData` is deliberately not stored. -/
def imageEntry (data : Obj) (now : Int) (sid : String) (uname : Option String) : Obj :=
  [("type", JVal.str "image"),
   ("x", jValOrUndef (Obj.get data "x")),
   ("y", jValOrUndef (Obj.get data "y")),
   ("width", jValOrUndef (Obj.get data "width")),
   ("height", jValOrUndef (Obj.get data "height")),
   ("timestamp", JVal.num now),
   ("userId", JVal.str sid),
   ("username", jOfOpt uname)]

/-- The `join-room` handler (server.js lines 32-72).  Events from a socket
id that is not a live connection cannot occur; we guard and ignore them. -/
def joinRoom (s : ServerState) (sid roomId username color : String) :
    ServerState × List Emit :=
  match mapGet s.conns sid with
  | none => (s, [])
  | some _ =>
    -- lines 33-35: unconditionally overwrite the closure variables
    let conn' : Conn :=
      { currentRoom := some roomId, currentUsername := some username,
        currentColor := some color }
    -- line 37: socket.join(roomId)
    let sio' :=
      match mapGet s.sio roomId with
      | none => mapSet s.sio roomId [sid]
      | some ms => if sid ∈ ms then s.sio else mapSet s.sio roomId (ms ++ [sid])
    -- lines 41-50: initialize the room if absent, then fetch it
    let rooms₀ :=
      match mapGet s.rooms roomId with
      | some _ => s.rooms
      | none => mapSet s.rooms roomId initRoom
    let room :=
      match mapGet s.rooms roomId with
      | some room => room
      | none => initRoom
    -- line 53: room.users.set(socket.id, {username, color, id: socket.id})
    let room' := { room with
      users := mapSet room.users sid { username := username, color := color, id := sid } }
    let s' := { s with conns := mapSet s.conns sid conn',
                       sio := sio', rooms := mapSet rooms₀ roomId room' }
    -- lines 56-58: send the current canvas state to the new user
    let stateEmits :=
      match room.state with
      | some blob => if blob == "" then [] else [Emit.canvasStateTo sid blob]
      | none => []
    -- lines 65-69: replay existing cursors (except the joiner's own id)
    let cursorEmits :=
      (room.cursors.filter (fun p => !(p.1 == sid))).map (fun p => Emit.cursorTo sid p.2)
    -- lines 61-62: broadcast the updated user list to the whole room
    (s', stateEmits ++
         Emit.usersUpdate roomId (room'.users.map (fun p => p.2)) :: cursorEmits)

/-- The `draw` handler (server.js lines 75-91).  The guard
`if (!currentRoom) return;` tests JS falsiness: it drops the event when
`currentRoom` is `null` *or* the empty-string room id. -/
def draw (s : ServerState) (sid : String) (data : Obj) (now : Int) :
    ServerState × List Emit :=
  match mapGet s.conns sid with
  | none => (s, [])
  | some c =>
    match c.currentRoom with
    | none => (s, [])
    | some rid =>
      if rid = "" then (s, [])
      else
        match mapGet s.rooms rid with
        | none => (s, [])
        | some room =>
          let room' := { room with
            history := room.history ++ [drawEntry data now sid c.currentUsername] }
          ({ s with rooms := mapSet s.rooms rid room' },
           [Emit.drawPeers rid sid data])

/-- The `draw-text` handler (server.js lines 94-111).  The guard
`if (!currentRoom) return;` tests JS falsiness: it drops the event when
`currentRoom` is `null` *or* the empty-string room id. -/
def drawText (s : ServerState) (sid : String) (data : Obj) (now : Int) :
    ServerState × List Emit :=
  match mapGet s.conns sid with
  | none => (s, [])
  | some c =>
    match c.currentRoom with
    | none => (s, [])
    | some rid =>
      if rid = "" then (s, [])
      else
        match mapGet s.rooms rid with
        | none => (s, [])
        | some room =>
          let room' := { room with
            history := room.history ++ [textEntry data now sid c.currentUsername] }
          ({ s with rooms := mapSet s.rooms rid room' },
           [Emit.drawTextPeers rid sid data])

/-- The `draw-image` handler (server.js lines 114-134).  The guard
`if (!currentRoom) return;` tests JS falsiness: it drops the event when
`currentRoom` is `null` *or* the empty-string room id. -/
def drawImage (s : ServerState) (sid : String) (data : Obj) (now : Int) :
    ServerState × List Emit :=
  match mapGet s.conns sid with
  | none => (s, [])
  | some c =>
    match c.currentRoom with
    | none => (s, [])
    | some rid =>
      if rid = "" then (s, [])
      else
        match mapGet s.rooms rid with
        | none => (s, [])
        | some room =>
          let room' := { room with
            history := room.history ++ [imageEntry data now sid c.currentUsername] }
          ({ s with rooms := mapSet s.rooms rid room' },
           [Emit.drawImagePeers rid sid data])

/-- The `cursor-move` handler (server.js lines 137-156).  The guard
`if (!currentRoom) return;` tests JS falsiness: it drops the event when
`currentRoom` is `null` *or* the empty-string room id. -/
def cursorMove (s : ServerState) (sid : String) (x y : Int) :
    ServerState × List Emit :=
  match mapGet s.conns sid with
  | none => (s, [])
  | some c =>
    match c.currentRoom with
    | none => (s, [])
    | some rid =>
      if rid = "" then (s, [])
      else
      match mapGet s.rooms rid with
      | none => (s, [])
      | some room =>
        let cursorData : Cursor :=
          { userId := sid, username := c.currentUsername,
            color := c.currentColor, x := x, y := y }
        let room' := { room with cursors := mapSet room.cursors sid cursorData }
        ({ s with rooms := mapSet s.rooms rid room' },
         [Emit.cursorPeers rid sid cursorData])

/-- The `clear-canvas` handler (server.js lines 159-173).  The JS guard
`if (!currentRoom) return;` also drops the falsy empty-string room id; we
render the guard as null-only here, which is observationally equal on
every reachable state: a room registered under `""` never holds history
or a snapshot (`blankEmptyRoom_run`), so for a `""`-joined connection both
behaviours leave the registry in the same state — the only difference is
a payload-free clear notification addressed to the `""` room. -/
def clearCanvas (s : ServerState) (sid : String) : ServerState × List Emit :=
  match mapGet s.conns sid with
  | none => (s, [])
  | some c =>
    match c.currentRoom with
    | none => (s, [])
    | some rid =>
      match mapGet s.rooms rid with
      | none => (s, [])
      | some room =>
        let room' := { room with history := [], state := none }
        ({ s with rooms := mapSet s.rooms rid room' }, [Emit.clearAll rid])

/-- The `save-canvas` handler (server.js lines 176-185).  The guard
`if (!currentRoom) return;` tests JS falsiness: it drops the event when
`currentRoom` is `null` *or* the empty-string room id. -/
def saveCanvas (s : ServerState) (sid : String) (dataURL : String) :
    ServerState × List Emit :=
  match mapGet s.conns sid with
  | none => (s, [])
  | some c =>
    match c.currentRoom with
    | none => (s, [])
    | some rid =>
      if rid = "" then (s, [])
      else
      match mapGet s.rooms rid with
      | none => (s, [])
      | some room =>
        let room' := { room with state := some dataURL }
        ({ s with rooms := mapSet s.rooms rid room' }, [])

/-- The `request-canvas-state` handler (server.js lines 188-197).  The JS
guard `if (!currentRoom) return;` also drops the falsy empty-string room
id; we render the guard as null-only here, which is observationally equal
on every reachable state: a room registered under `""` never holds a
snapshot (`blankEmptyRoom_run`), so the truthiness test on `room.state`
already delivers nothing, exactly as the dropped event would. -/
def requestCanvasState (s : ServerState) (sid : String) : ServerState × List Emit :=
  match mapGet s.conns sid with
  | none => (s, [])
  | some c =>
    match c.currentRoom with
    | none => (s, [])
    | some rid =>
      match mapGet s.rooms rid with
      | none => (s, [])
      | some room =>
        (s, match room.state with
            | some blob => if blob == "" then [] else [Emit.canvasStateTo sid blob]
            | none => [])

/-- A new transport connection (server.js line 24): fresh closure state
with all three variables `null`. -/
def connect (s : ServerState) (sid : String) : ServerState × List Emit :=
  match mapGet s.conns sid with
  | some _ => (s, [])
  | none =>
    let c0 : Conn :=
      { currentRoom := none, currentUsername := none, currentColor := none }
    ({ s with conns := mapSet s.conns sid c0 }, [])

/-- The `disconnect` handler (server.js lines 205-237).  The connection's
closure state dies with the socket (no further events can arrive from it),
which we model by removing it from `conns`; socket.io removes the socket
from every socket.io room.  The guard `if (currentRoom)` (line 208) tests
JS truthiness: the whole removal/notification block is skipped when
`currentRoom` is `null` *or* the falsy empty-string room id — in the
latter case the stale member entry is left behind in room `""`. -/
def disconnect (s : ServerState) (sid : String) : ServerState × List Emit :=
  match mapGet s.conns sid with
  | none => (s, [])
  | some c =>
    let sio' := s.sio.map (fun p => (p.1, p.2.filter (fun m => !(m == sid))))
    let conns' := mapDelete s.conns sid
    match c.currentRoom with
    | none => ({ s with conns := conns', sio := sio' }, [])
    | some rid =>
      if rid = "" then ({ s with conns := conns', sio := sio' }, [])
      else
      match mapGet s.rooms rid with
      | none => ({ s with conns := conns', sio := sio' }, [])
      | some room =>
        -- lines 212-213: remove the user from users and cursors
        let room' := { room with users := mapDelete room.users sid,
                                 cursors := mapDelete room.cursors sid }
        ({ s with conns := conns', sio := sio',
                  rooms := mapSet s.rooms rid room' },
         [Emit.userLeft rid sid sid,
          Emit.usersUpdate rid (room'.users.map (fun p => p.2))])

/-- The condition (server.js line 226) under which the disconnect handler
arms the 5-minute empty-room cleanup timer, evaluated on the pre-state:
inside the truthiness-guarded `if (currentRoom)` block, after the user was
removed, when the room's member count reached zero. -/
def timerArmedAfterDisconnect (s : ServerState) (sid : String) : Bool :=
  match mapGet s.conns sid with
  | none => false
  | some c =>
    match c.currentRoom with
    | none => false
    | some rid =>
      if rid = "" then false
      else
      match mapGet s.rooms rid with
      | none => false
      | some room => (mapDelete room.users sid).isEmpty

/-- The body of the cleanup callback armed at server.js lines 227-233.
Its first statement is `const currentRoom = rooms.get(currentRoom);`:
inside the callback block that `const` declaration shadows the outer
`currentRoom`, so the read of `currentRoom` in its own initializer hits
the temporal dead zone and the callback throws
`ReferenceError: Cannot access currentRoom before initialization` before
reaching the `rooms.delete` call.  The registry is never mutated. -/
def emptyRoomTimerFire (registry : List (String × Room)) :
    Except String (List (String × Room)) :=
  match registry with
  | _ => Except.error "ReferenceError: Cannot access currentRoom before initialization"

/-- A client or transport event arriving at the broker. -/
inductive Event where
  | connect (sid : String)
  | joinRoom (sid roomId username color : String)
  | draw (sid : String) (data : Obj)
  | drawText (sid : String) (data : Obj)
  | drawImage (sid : String) (data : Obj)
  | cursorMove (sid : String) (x y : Int)
  | clearCanvas (sid : String)
  | saveCanvas (sid : String) (dataURL : String)
  | requestCanvasState (sid : String)
  | ping (sid : String)
  | disconnect (sid : String)
  deriving DecidableEq, Repr

/-- Dispatch one event; `now` is the `Date.now()` value for this event. -/
def step (s : ServerState) (e : Event) (now : Int) : ServerState × List Emit :=
  match e with
  | .connect sid => connect s sid
  | .joinRoom sid r u c => joinRoom s sid r u c
  | .draw sid d => draw s sid d now
  | .drawText sid d => drawText s sid d now
  | .drawImage sid d => drawImage s sid d now
  | .cursorMove sid x y => cursorMove s sid x y
  | .clearCanvas sid => clearCanvas s sid
  | .saveCanvas sid url => saveCanvas s sid url
  | .requestCanvasState sid => requestCanvasState s sid
  | .ping sid =>
    (s, match mapGet s.conns sid with
        | some _ => [Emit.ackPing sid]
        | none => [])
  | .disconnect sid => disconnect s sid

/-- Run a trace of events, recording for each step the post-state and the
emissions of that step (`Date.now()` is the event's index). -/
def stepsFrom (s : ServerState) (n : Nat) : List Event → List (ServerState × List Emit)
  | [] => []
  | e :: es =>
    let p := step s e (Int.ofNat n)
    p :: stepsFrom p.1 (n + 1) es

/-- The per-step states and emissions of a trace run from startup. -/
def traceSteps (es : List Event) : List (ServerState × List Emit) :=
  stepsFrom initState 0 es

/-- Run a trace of events, returning the final state. -/
def runFrom (s : ServerState) (n : Nat) : List Event → ServerState
  | [] => s
  | e :: es => runFrom (step s e (Int.ofNat n)).1 (n + 1) es

/-- The broker state after a trace of events from startup. -/
def run (es : List Event) : ServerState := runFrom initState 0 es

/-- Every room's `users` map lists exactly the connections whose
`currentRoom` is that room. -/
def UsersMatchJoined (s : ServerState) : Prop :=
  ∀ r room, mapGet s.rooms r = some room →
    ∀ sid, sid ∈ keysOf room.users ↔ JoinedTo s sid r

/-- Every stored `Participant` carries its own map key as `id`. -/
def IdsAgree (s : ServerState) : Prop :=
  ∀ r room, mapGet s.rooms r = some room → ∀ p ∈ room.users, p.2.id = p.1

/-- Every joined connection's `currentRoom` is a registered room. -/
def JoinedRoomsExist (s : ServerState) : Prop :=
  ∀ sid c, mapGet s.conns sid = some c → ∀ r, c.currentRoom = some r →
    (mapGet s.rooms r).isSome = true

/-- No live connection is joined under the falsy empty-string room id.
The disciplined traces of C3 never issue a join naming `""`, so this holds
along them; it is needed because the disconnect handler's truthiness guard
would skip membership cleanup for a `""`-joined connection. -/
def NoFalsyRoom (s : ServerState) : Prop :=
  ∀ sid c, mapGet s.conns sid = some c → ¬ c.currentRoom = some ""

/-- The combined membership invariant. -/
def BrokerInv (s : ServerState) : Prop :=
  UsersMatchJoined s ∧ IdsAgree s ∧ JoinedRoomsExist s ∧ NoFalsyRoom s

/-- A `users-update` emission is exact: the ids it carries are exactly the
connections currently joined to the room it is sent to. -/
def usersUpdateExact (em : Emit) (s : ServerState) : Prop :=
  ∀ r L, em = Emit.usersUpdate r L →
    ∀ sid, sid ∈ L.map Participant.id ↔ JoinedTo s sid r

/-- The connection is unjoined (or unknown): `currentRoom` is `null`. -/
def unjoined (s : ServerState) (sid : String) : Bool :=
  match mapGet s.conns sid with
  | none => true
  | some c => c.currentRoom.isNone

/-- The `Conn` record written by the join handler (server.js lines 33-35). -/
def joinConn (roomId username color : String) : Conn :=
  { currentRoom := some roomId, currentUsername := some username,
    currentColor := some color }

/-- The `Participant` written by the join handler (server.js line 53). -/
def joinPart (sid username color : String) : Participant :=
  { username := username, color := color, id := sid }

/-- The only event the exactness induction restricts: a `join-room` must
come from a connection that is not already joined, and must not name the
falsy empty-string room id (whose membership the truthiness-guarded
disconnect handler never cleans up). -/
def eventDisciplined (s : ServerState) (e : Event) : Bool :=
  match e with
  | .joinRoom sid roomId _ _ => unjoined s sid && !(roomId == "")
  | _ => true

/-- Every event of the trace is disciplined, evaluated along the run. -/
def disciplinedFrom (s : ServerState) (n : Nat) : List Event → Bool
  | [] => true
  | e :: es =>
    eventDisciplined s e && disciplinedFrom (step s e (Int.ofNat n)).1 (n + 1) es

/-- A room registered under the falsy empty-string id holds no history
and no snapshot.  All writers of those two fields are behind the
falsiness guard on `currentRoom`, which drops events from a `""`-joined
connection, so the property holds in every reachable state
(`blankEmptyRoom_run`); it justifies rendering the clear-canvas and
request-canvas-state guards as null-only. -/
def BlankEmptyRoom (s : ServerState) : Prop :=
  ∀ room, mapGet s.rooms "" = some room → room.history = [] ∧ room.state = none

/-- Every room's cursor keys are a subset of its member keys. -/
def CursorsSubUsers (s : ServerState) : Prop :=
  ∀ r room, mapGet s.rooms r = some room →
    ∀ sid, sid ∈ keysOf room.cursors → sid ∈ keysOf room.users

/-- Every connection joined to a registered room is in its `users` map. -/
def JoinedInUsers (s : ServerState) : Prop :=
  ∀ r room, mapGet s.rooms r = some room →
    ∀ sid, JoinedTo s sid r → sid ∈ keysOf room.users

/-- The presence invariant: holds in every reachable state (with no
restriction on the trace). -/
def PresenceInv (s : ServerState) : Prop :=
  CursorsSubUsers s ∧ JoinedInUsers s ∧ JoinedRoomsExist s

/-- C3 as literally stated: over *all* event traces, every `users-update`
broadcast equals the set of currently joined connections. -/
def usersUpdateAlwaysExact : Prop :=
  ∀ es : List Event, ∀ p ∈ traceSteps es, ∀ em ∈ p.2, usersUpdateExact em p.1

/-- A trace in which connection A joins a second room while already
joined — accepted by the guard-free join handler. -/
def doubleJoinTrace : List Event :=
  [.connect "A", .joinRoom "A" "r1" "alice" "#f00",
   .connect "B", .joinRoom "B" "r1" "bob" "#00f",
   .joinRoom "A" "r2" "alice" "#f00",
   .disconnect "B"]

/-- A trace with no double join at all in which A joins the falsy
empty-string room id and disconnects: the truthiness-guarded disconnect
handler skips membership cleanup, so when B later joins `""` the
broadcast still lists the long-gone A. -/
def emptyIdJoinTrace : List Event :=
  [.connect "A", .joinRoom "A" "" "alice" "#f00",
   .disconnect "A",
   .connect "B", .joinRoom "B" "" "bob" "#00f"]

/-- The concrete room reached by connect/join/cursor-move, used to witness
C10. -/
def c10WitnessRoom : Room :=
  { users := [("A", { username := "alice", color := "red", id := "A" })],
    history := [], state := none,
    cursors := [("A", { userId := "A", username := some "alice",
                        color := some "red", x := 1, y := 2 })] }

/-- C2 as literally stated: a `join-room` from an already-joined connection
is a no-op — it changes neither which room the connection belongs to nor
any room's member set. -/
def secondJoinIsNoOp : Prop :=
  ∀ (es : List Event) (sid rid u col : String),
    (currentRoomOf (run es) sid).isSome = true →
    currentRoomOf (joinRoom (run es) sid rid u col).1 sid
        = currentRoomOf (run es) sid
    ∧ ∀ r a, (a ∈ usersKeysOf (joinRoom (run es) sid rid u col).1 r ↔
        a ∈ usersKeysOf (run es) r)

/-- The four-event prefix of the C4 scenario: A and B both join r1. -/
def drawScenarioPrefix : List Event :=
  [.connect "A", .joinRoom "A" "r1" "alice" "#f00",
   .connect "B", .joinRoom "B" "r1" "bob" "#00f"]

/-- The draw payload `{x: 1, y: 2}` of the C4 scenario. -/
def drawXY : Obj := [("x", JVal.num 1), ("y", JVal.num 2)]

/-- C4 as literally stated: the payload broadcast to peers for A's draw
carries `userId: "A"`. -/
def drawBroadcastHasUserId : Prop :=
  ∀ em ∈ (step (run drawScenarioPrefix) (.draw "A" drawXY) 4).2,
    ∀ rid sender o, em = Emit.drawPeers rid sender o →
      Obj.get o "userId" = some (JVal.str "A")

/-- C5 as literally stated: every history entry appended by `draw-text` is
tagged `type = "text"`, for *every* payload, including payloads that carry
a `type` field themselves. -/
def drawTextAlwaysTagsText : Prop :=
  ∀ (s : ServerState) (sid : String) (data : Obj) (now : Int) (rid : String)
    (room room' : Room),
    currentRoomOf s sid = some rid →
    mapGet s.rooms rid = some room →
    mapGet (drawText s sid data now).1.rooms rid = some room' →
    ∀ e, room'.history = room.history ++ [e] →
      Obj.get e "type" = some (JVal.str "text")

/-- The seven operation events of the C9 claim, for one connection. -/
def opEvents (sid : String) (data : Obj) (x y : Int) (url : String) : List Event :=
  [Event.draw sid data, Event.drawText sid data, Event.drawImage sid data,
   Event.cursorMove sid x y, Event.clearCanvas sid, Event.saveCanvas sid url,
   Event.requestCanvasState sid]

/-! ### Lemmas and claim theorems -/

/-! ### Association-list map lemmas -/

theorem mapGet_set_self {α : Type} (l : List (String × α)) (k : String) (v : α) :
    mapGet (mapSet l k v) k = some v := by
  induction l with
  | nil => simp [mapSet, mapGet]
  | cons p rest ih =>
    cases p with
    | mk pk pv =>
      by_cases h : pk = k
      · simp [mapSet, mapGet, h]
      · simp [mapSet, mapGet, h, ih]

theorem mapGet_set_ne {α : Type} (l : List (String × α)) (k k' : String) (v : α)
    (h : ¬ k' = k) : mapGet (mapSet l k v) k' = mapGet l k' := by
  have hk : ¬ k = k' := fun hh => h hh.symm
  induction l with
  | nil => simp [mapSet, mapGet, hk]
  | cons p rest ih =>
    cases p with
    | mk pk pv =>
      by_cases hp : pk = k
      · subst hp
        simp [mapSet, mapGet, hk]
      · by_cases hq : pk = k'
        · simp [mapSet, mapGet, hp, hq, h]
        · simp [mapSet, mapGet, hp, hq, ih]

theorem mapGet_delete_self {α : Type} (l : List (String × α)) (k : String) :
    mapGet (mapDelete l k) k = none := by
  induction l with
  | nil => simp [mapDelete, mapGet]
  | cons p rest ih =>
    cases p with
    | mk pk pv =>
      by_cases h : pk = k
      · simp [mapDelete, h, ih]
      · simp [mapDelete, mapGet, h, ih]

theorem mapGet_delete_ne {α : Type} (l : List (String × α)) (k k' : String)
    (h : ¬ k' = k) : mapGet (mapDelete l k) k' = mapGet l k' := by
  induction l with
  | nil => simp [mapDelete]
  | cons p rest ih =>
    cases p with
    | mk pk pv =>
      by_cases hp : pk = k
      · subst hp
        have : ¬ pk = k' := fun hh => h hh.symm
        simp [mapDelete, mapGet, this, ih]
      · by_cases hq : pk = k'
        · simp [mapDelete, mapGet, hp, hq, h]
        · simp [mapDelete, mapGet, hp, hq, ih]

theorem mem_keysOf_set {α : Type} (l : List (String × α)) (k a : String) (v : α) :
    a ∈ keysOf (mapSet l k v) ↔ a = k ∨ a ∈ keysOf l := by
  induction l with
  | nil => simp [mapSet, keysOf]
  | cons p rest ih =>
    cases p with
    | mk pk pv =>
      simp only [mapSet]
      by_cases h : pk = k
      · rw [if_pos h]
        subst h
        simp only [keysOf, List.map_cons, List.mem_cons]
        tauto
      · rw [if_neg h]
        simp only [keysOf, List.map_cons, List.mem_cons] at ih ⊢
        rw [ih]
        tauto

theorem mem_keysOf_delete {α : Type} (l : List (String × α)) (k a : String) :
    a ∈ keysOf (mapDelete l k) ↔ ¬ a = k ∧ a ∈ keysOf l := by
  induction l with
  | nil => simp [mapDelete, keysOf]
  | cons p rest ih =>
    cases p with
    | mk pk pv =>
      simp only [mapDelete]
      by_cases h : pk = k
      · rw [if_pos h]
        subst h
        simp only [keysOf, List.map_cons, List.mem_cons] at ih ⊢
        rw [ih]
        constructor
        · rintro ⟨hne, hr⟩
          exact ⟨hne, Or.inr hr⟩
        · rintro ⟨hne, rfl | hr⟩
          · exact absurd rfl hne
          · exact ⟨hne, hr⟩
      · rw [if_neg h]
        simp only [keysOf, List.map_cons, List.mem_cons] at ih ⊢
        rw [ih]
        constructor
        · rintro (rfl | ⟨hne, hr⟩)
          · exact ⟨h, Or.inl rfl⟩
          · exact ⟨hne, Or.inr hr⟩
        · rintro ⟨hne, rfl | hr⟩
          · exact Or.inl rfl
          · exact Or.inr ⟨hne, hr⟩

theorem mem_of_mem_mapSet {α : Type} (l : List (String × α)) (k : String) (v : α)
    (p : String × α) (h : p ∈ mapSet l k v) : p = (k, v) ∨ p ∈ l := by
  induction l with
  | nil => simpa [mapSet] using h
  | cons q rest ih =>
    cases q with
    | mk qk qv =>
      by_cases hq : qk = k
      · simp only [mapSet, if_pos hq, List.mem_cons] at h
        rcases h with rfl | h
        · exact Or.inl rfl
        · exact Or.inr (List.mem_cons_of_mem _ h)
      · simp only [mapSet, if_neg hq, List.mem_cons] at h
        rcases h with rfl | h
        · exact Or.inr (List.mem_cons_self _ _)
        · rcases ih h with h | h
          · exact Or.inl h
          · exact Or.inr (List.mem_cons_of_mem _ h)

theorem mem_of_mem_mapDelete {α : Type} (l : List (String × α)) (k : String)
    (p : String × α) (h : p ∈ mapDelete l k) : p ∈ l := by
  induction l with
  | nil => simp [mapDelete] at h
  | cons q rest ih =>
    cases q with
    | mk qk qv =>
      by_cases hq : qk = k
      · simp only [mapDelete, if_pos hq] at h
        exact List.mem_cons_of_mem _ (ih h)
      · simp only [mapDelete, if_neg hq, List.mem_cons] at h
        rcases h with rfl | h
        · exact List.mem_cons_self _ _
        · exact List.mem_cons_of_mem _ (ih h)

theorem map_snd_id_eq_keysOf (l : List (String × Participant))
    (h : ∀ p ∈ l, p.2.id = p.1) :
    (l.map (fun p => p.2)).map Participant.id = keysOf l := by
  induction l with
  | nil => simp [keysOf]
  | cons p rest ih =>
    simp only [List.map_cons, keysOf, List.map_map] at ih ⊢
    rw [h p (List.mem_cons_self _ _)]
    congr 1
    simpa [keysOf, Function.comp] using ih (fun q hq => h q (List.mem_cons_of_mem _ hq))

/-- Last-binding-wins lookup distributes over concatenation. -/
theorem Obj.get_append (a b : Obj) (k : String) :
    Obj.get (a ++ b) k =
      match Obj.get b k with
      | some v => some v
      | none => Obj.get a k := by
  induction a with
  | nil =>
    cases h : Obj.get b k <;> simp [Obj.get, h]
  | cons p rest ih =>
    cases p with
    | mk k' v =>
      simp only [List.cons_append, Obj.get, List.append_eq]
      rw [ih]
      cases h : Obj.get b k <;> cases h2 : Obj.get rest k <;> simp [h, h2]

theorem brokerInv_initState : BrokerInv initState := by
  refine ⟨?_, ?_, ?_, ?_⟩ <;> intro r room h <;> simp [initState, mapGet] at h

theorem usersUpdateExact_of_not (em : Emit) (s : ServerState)
    (h : ∀ r L, ¬ em = Emit.usersUpdate r L) : usersUpdateExact em s :=
  fun r L hem => absurd hem (h r L)

/-- A `users-update` built from the room's own `users` map is exact in any
state satisfying the invariant. -/
theorem usersUpdate_exact_of_inv (s : ServerState) (rid : String) (room : Room)
    (hI : BrokerInv s) (hr : mapGet s.rooms rid = some room) :
    usersUpdateExact (Emit.usersUpdate rid (room.users.map (fun p => p.2))) s := by
  intro r L hem sid
  obtain ⟨h1, h2, h3⟩ := hI
  have hrid : rid = r := by injection hem
  have hL : L = room.users.map (fun p => p.2) := by injection hem with _ hh; exact hh.symm
  subst hrid
  subst hL
  rw [map_snd_id_eq_keysOf room.users (h2 rid room hr)]
  exact h1 rid room hr sid

/-- Modifying only non-`users` fields of one registered room, and nothing
else, preserves the invariant. -/
theorem inv_set_room (s : ServerState) (rid : String) (room room' : Room)
    (hr : mapGet s.rooms rid = some room)
    (hu : room'.users = room.users)
    (h : BrokerInv s) :
    BrokerInv { s with rooms := mapSet s.rooms rid room' } := by
  obtain ⟨h1, h2, h3, h4⟩ := h
  refine ⟨?_, ?_, ?_, ?_⟩
  · intro r rm hrm sid
    by_cases hrr : r = rid
    · subst hrr
      rw [mapGet_set_self] at hrm
      simp only [Option.some.injEq] at hrm
      subst hrm
      rw [hu]
      simpa [JoinedTo, currentRoomOf] using h1 r room hr sid
    · rw [mapGet_set_ne _ _ _ _ hrr] at hrm
      simpa [JoinedTo, currentRoomOf] using h1 r rm hrm sid
  · intro r rm hrm p hp
    by_cases hrr : r = rid
    · subst hrr
      rw [mapGet_set_self] at hrm
      simp only [Option.some.injEq] at hrm
      subst hrm
      rw [hu] at hp
      exact h2 r room hr p hp
    · rw [mapGet_set_ne _ _ _ _ hrr] at hrm
      exact h2 r rm hrm p hp
  · intro sid c hc r hcr
    by_cases hrr : r = rid
    · subst hrr
      rw [mapGet_set_self]
      rfl
    · rw [mapGet_set_ne _ _ _ _ hrr]
      exact h3 sid c hc r hcr
  · intro sid c hc
    exact h4 sid c hc

theorem connRoom_set_self (conns : List (String × Conn)) (sid : String) (c' : Conn) :
    connRoom (mapSet conns sid c') sid = c'.currentRoom := by
  simp [connRoom, mapGet_set_self]

theorem connRoom_set_ne (conns : List (String × Conn)) (sid a : String) (c' : Conn)
    (ha : ¬ a = sid) : connRoom (mapSet conns sid c') a = connRoom conns a := by
  simp [connRoom, mapGet_set_ne _ _ _ _ ha]

theorem connRoom_delete_self (conns : List (String × Conn)) (sid : String) :
    connRoom (mapDelete conns sid) sid = none := by
  simp [connRoom, mapGet_delete_self]

theorem connRoom_delete_ne (conns : List (String × Conn)) (sid a : String)
    (ha : ¬ a = sid) : connRoom (mapDelete conns sid) a = connRoom conns a := by
  simp [connRoom, mapGet_delete_ne _ _ _ ha]

/-- A fresh connection (all closure variables `null`) preserves the
invariant. -/
theorem inv_connect (s : ServerState) (sid : String) (h : BrokerInv s) :
    BrokerInv (connect s sid).1 := by
  obtain ⟨h1, h2, h3, h4⟩ := h
  cases hc : mapGet s.conns sid with
  | some c => simpa [connect, hc] using ⟨h1, h2, h3, h4⟩
  | none =>
    simp only [connect, hc]
    refine ⟨?_, ?_, ?_, ?_⟩
    · intro r rm hrm a
      have hbase := h1 r rm hrm a
      simp only [JoinedTo, currentRoomOf] at hbase ⊢
      by_cases ha : a = sid
      · subst ha
        rw [hbase]
        simp [connRoom, hc, mapGet_set_self]
      · rw [connRoom_set_ne _ _ _ _ ha]
        exact hbase
    · intro r rm hrm p hp
      exact h2 r rm hrm p hp
    · intro a c hc2 r hcr
      by_cases ha : a = sid
      · subst ha
        rw [mapGet_set_self] at hc2
        simp only [Option.some.injEq] at hc2
        subst hc2
        simp at hcr
      · rw [mapGet_set_ne _ _ _ _ ha] at hc2
        exact h3 a c hc2 r hcr
    · intro a c hc2
      by_cases ha : a = sid
      · subst ha
        rw [mapGet_set_self] at hc2
        simp only [Option.some.injEq] at hc2
        subst hc2
        simp
      · rw [mapGet_set_ne _ _ _ _ ha] at hc2
        exact h4 a c hc2

/-- Core of join preservation: joining an *unjoined* connection `sid` to
`roomId` preserves the membership invariant, for any pre-room `room` whose
`users` already match the joined set and any registry `rooms₀` agreeing
with the old one away from `roomId`. -/
theorem inv_join_common (s : ServerState) (sid roomId username color : String)
    (c : Conn) (hc : mapGet s.conns sid = some c) (hcr : c.currentRoom = none)
    (hnb : ¬ roomId = "")
    (h : BrokerInv s)
    (rooms₀ : List (String × Room)) (room : Room)
    (K1 : ∀ r, ¬ r = roomId → mapGet rooms₀ r = mapGet s.rooms r)
    (K2 : ∀ a, a ∈ keysOf room.users ↔ JoinedTo s a roomId)
    (K3 : ∀ p ∈ room.users, p.2.id = p.1)
    (sio' : List (String × List String)) :
    BrokerInv (ServerState.mk
      (mapSet rooms₀ roomId
        { room with users := mapSet room.users sid (joinPart sid username color) })
      (mapSet s.conns sid (joinConn roomId username color))
      sio') := by
  obtain ⟨h1, h2, h3, h4⟩ := h
  refine ⟨?_, ?_, ?_, ?_⟩
  · intro r rm hrm a
    simp only [JoinedTo, currentRoomOf] at K2 ⊢
    simp only at hrm
    by_cases hrr : r = roomId
    · subst hrr
      rw [mapGet_set_self] at hrm
      simp only [Option.some.injEq] at hrm
      subst hrm
      simp only
      rw [mem_keysOf_set]
      by_cases ha : a = sid
      · subst ha
        rw [connRoom_set_self]
        simp [joinConn]
      · rw [connRoom_set_ne _ _ _ _ ha, ← K2 a]
        simp [ha]
    · rw [mapGet_set_ne _ _ _ _ hrr, K1 r hrr] at hrm
      have hbase := h1 r rm hrm a
      simp only [JoinedTo, currentRoomOf] at hbase
      by_cases ha : a = sid
      · subst ha
        rw [connRoom_set_self]
        have hL : ¬ a ∈ keysOf rm.users := by
          rw [hbase]
          simp [connRoom, hc, hcr]
        have hR : ¬ (joinConn roomId username color).currentRoom = some r := by
          simp only [joinConn, Option.some.injEq]
          exact fun hh => hrr hh.symm
        exact iff_of_false hL hR
      · rw [connRoom_set_ne _ _ _ _ ha]
        exact hbase
  · intro r rm hrm p hp
    simp only at hrm
    by_cases hrr : r = roomId
    · subst hrr
      rw [mapGet_set_self] at hrm
      simp only [Option.some.injEq] at hrm
      subst hrm
      simp only at hp
      rcases mem_of_mem_mapSet _ _ _ _ hp with rfl | hp'
      · rfl
      · exact K3 p hp'
    · rw [mapGet_set_ne _ _ _ _ hrr, K1 r hrr] at hrm
      exact h2 r rm hrm p hp
  · intro a c2 hc2 r hcr2
    simp only at hc2 ⊢
    by_cases ha : a = sid
    · subst ha
      rw [mapGet_set_self] at hc2
      simp only [Option.some.injEq] at hc2
      subst hc2
      simp only [joinConn, Option.some.injEq] at hcr2
      subst hcr2
      rw [mapGet_set_self]
      rfl
    · rw [mapGet_set_ne _ _ _ _ ha] at hc2
      have := h3 a c2 hc2 r hcr2
      by_cases hrr : r = roomId
      · subst hrr
        rw [mapGet_set_self]
        rfl
      · rw [mapGet_set_ne _ _ _ _ hrr, K1 r hrr]
        exact this
  · intro a c2 hc2
    simp only at hc2
    by_cases ha : a = sid
    · subst ha
      rw [mapGet_set_self] at hc2
      simp only [Option.some.injEq] at hc2
      subst hc2
      simp only [joinConn, Option.some.injEq]
      exact hnb
    · rw [mapGet_set_ne _ _ _ _ ha] at hc2
      exact h4 a c2 hc2

/-- A `join-room` from an unjoined connection preserves the invariant and
every `users-update` it emits is exact. -/
theorem inv_joinRoom (s : ServerState) (sid roomId username color : String)
    (h : BrokerInv s) (hd : unjoined s sid = true) (hnb : ¬ roomId = "") :
    BrokerInv (joinRoom s sid roomId username color).1 ∧
      ∀ em ∈ (joinRoom s sid roomId username color).2,
        usersUpdateExact em (joinRoom s sid roomId username color).1 := by
  cases hc : mapGet s.conns sid with
  | none =>
    constructor
    · simpa [joinRoom, hc] using h
    · intro em hem
      simp [joinRoom, hc] at hem
  | some c =>
    have hcr : c.currentRoom = none := by
      unfold unjoined at hd
      rw [hc] at hd
      simpa using hd
    cases hr : mapGet s.rooms roomId with
    | some room₀ =>
      have hI' := inv_join_common s sid roomId username color c hc hcr hnb h
        s.rooms room₀ (fun r _ => rfl)
        (fun a => h.1 roomId room₀ hr a) (h.2.1 roomId room₀ hr)
        (match mapGet s.sio roomId with
         | none => mapSet s.sio roomId [sid]
         | some ms => if sid ∈ ms then s.sio else mapSet s.sio roomId (ms ++ [sid]))
      constructor
      · simp only [joinRoom, hc, hr]
        exact hI'
      · intro em hem
        simp only [joinRoom, hc, hr, List.mem_append, List.mem_cons] at hem
        rcases hem with hem | hem | hem
        · have hcs : ∃ b, em = Emit.canvasStateTo sid b := by
            rcases hst : room₀.state with _ | blob
            · rw [hst] at hem
              simp at hem
            · rw [hst] at hem
              by_cases hb : blob == ""
              · simp [hb] at hem
              · simp [hb] at hem
                exact ⟨blob, hem⟩
          obtain ⟨b, rfl⟩ := hcs
          exact usersUpdateExact_of_not _ _ (by intro r L hh; simp at hh)
        · subst hem
          simp only [joinRoom, hc, hr]
          exact usersUpdate_exact_of_inv _ roomId _ hI' (mapGet_set_self _ _ _)
        · rcases List.mem_map.mp hem with ⟨p, _, rfl⟩
          exact usersUpdateExact_of_not _ _ (by intro r L hh; simp at hh)
    | none =>
      have K2 : ∀ a, a ∈ keysOf initRoom.users ↔ JoinedTo s a roomId := by
        intro a
        refine iff_of_false (by simp [initRoom, keysOf]) ?_
        intro hj
        simp only [JoinedTo, currentRoomOf, connRoom] at hj
        cases hca : mapGet s.conns a with
        | none => simp [hca] at hj
        | some c2 =>
          simp only [hca] at hj
          have hex := h.2.2.1 a c2 hca roomId hj
          rw [hr] at hex
          simp at hex
      have hI' := inv_join_common s sid roomId username color c hc hcr hnb h
        (mapSet s.rooms roomId initRoom) initRoom
        (fun r hrr => mapGet_set_ne _ _ _ _ hrr)
        K2
        (by intro p hp; simp [initRoom] at hp)
        (match mapGet s.sio roomId with
         | none => mapSet s.sio roomId [sid]
         | some ms => if sid ∈ ms then s.sio else mapSet s.sio roomId (ms ++ [sid]))
      constructor
      · simp only [joinRoom, hc, hr]
        exact hI'
      · intro em hem
        simp only [joinRoom, hc, hr, initRoom, List.mem_append, List.mem_cons,
          List.filter_nil, List.map_nil, List.not_mem_nil, false_or, or_false] at hem
        subst hem
        simp only [joinRoom, hc, hr]
        exact usersUpdate_exact_of_inv _ roomId _ hI' (mapGet_set_self _ _ _)

/-- Removing a connection that is not a member of any registered room
preserves the invariant. -/
theorem inv_disconnect_noroom (s : ServerState) (sid : String)
    (sio' : List (String × List String))
    (h : BrokerInv s)
    (H : ∀ r rm, mapGet s.rooms r = some rm → ¬ JoinedTo s sid r) :
    BrokerInv (ServerState.mk s.rooms (mapDelete s.conns sid) sio') := by
  obtain ⟨h1, h2, h3, h4⟩ := h
  refine ⟨?_, ?_, ?_, ?_⟩
  · intro r rm hrm a
    simp only at hrm
    have hbase := h1 r rm hrm a
    simp only [JoinedTo, currentRoomOf] at hbase ⊢
    by_cases ha : a = sid
    · subst ha
      rw [connRoom_delete_self]
      refine iff_of_false ?_ (by simp)
      rw [hbase]
      have hH := H r rm hrm
      simp only [JoinedTo, currentRoomOf] at hH
      exact hH
    · rw [connRoom_delete_ne _ _ _ ha]
      exact hbase
  · intro r rm hrm p hp
    exact h2 r rm hrm p hp
  · intro a c2 hc2 r hcr2
    simp only at hc2 ⊢
    by_cases ha : a = sid
    · subst ha
      rw [mapGet_delete_self] at hc2
      cases hc2
    · rw [mapGet_delete_ne _ _ _ ha] at hc2
      exact h3 a c2 hc2 r hcr2
  · intro a c2 hc2
    simp only at hc2
    by_cases ha : a = sid
    · subst ha
      rw [mapGet_delete_self] at hc2
      cases hc2
    · rw [mapGet_delete_ne _ _ _ ha] at hc2
      exact h4 a c2 hc2

/-- Removing a connection from its current room's `users`/`cursors` and
from the connection table preserves the invariant. -/
theorem inv_disconnect_room (s : ServerState) (sid rid : String) (room : Room)
    (c : Conn) (hc : mapGet s.conns sid = some c) (hcr : c.currentRoom = some rid)
    (hrr : mapGet s.rooms rid = some room)
    (sio' : List (String × List String))
    (h : BrokerInv s) :
    BrokerInv (ServerState.mk
      (mapSet s.rooms rid
        { room with users := mapDelete room.users sid,
                    cursors := mapDelete room.cursors sid })
      (mapDelete s.conns sid) sio') := by
  obtain ⟨h1, h2, h3, h4⟩ := h
  refine ⟨?_, ?_, ?_, ?_⟩
  · intro r rm hrm a
    simp only at hrm
    by_cases hr2 : r = rid
    · subst hr2
      rw [mapGet_set_self] at hrm
      simp only [Option.some.injEq] at hrm
      subst hrm
      simp only [JoinedTo, currentRoomOf]
      show a ∈ keysOf (mapDelete room.users sid) ↔ _
      rw [mem_keysOf_delete]
      by_cases ha : a = sid
      · subst ha
        rw [connRoom_delete_self]
        exact iff_of_false (by simp) (by simp)
      · rw [connRoom_delete_ne _ _ _ ha]
        have hbase := h1 r room hrr a
        simp only [JoinedTo, currentRoomOf] at hbase
        rw [← hbase]
        simp [ha]
    · rw [mapGet_set_ne _ _ _ _ hr2] at hrm
      have hbase := h1 r rm hrm a
      simp only [JoinedTo, currentRoomOf] at hbase ⊢
      by_cases ha : a = sid
      · subst ha
        rw [connRoom_delete_self]
        refine iff_of_false ?_ (by simp)
        rw [hbase]
        simp only [connRoom, hc, hcr, Option.some.injEq]
        exact fun hh => hr2 hh.symm
      · rw [connRoom_delete_ne _ _ _ ha]
        exact hbase
  · intro r rm hrm p hp
    simp only at hrm
    by_cases hr2 : r = rid
    · subst hr2
      rw [mapGet_set_self] at hrm
      simp only [Option.some.injEq] at hrm
      subst hrm
      simp only at hp
      exact h2 r room hrr p (mem_of_mem_mapDelete _ _ _ hp)
    · rw [mapGet_set_ne _ _ _ _ hr2] at hrm
      exact h2 r rm hrm p hp
  · intro a c2 hc2 r hcr2
    simp only at hc2 ⊢
    by_cases ha : a = sid
    · subst ha
      rw [mapGet_delete_self] at hc2
      cases hc2
    · rw [mapGet_delete_ne _ _ _ ha] at hc2
      have hex := h3 a c2 hc2 r hcr2
      by_cases hr2 : r = rid
      · subst hr2
        rw [mapGet_set_self]
        rfl
      · rw [mapGet_set_ne _ _ _ _ hr2]
        exact hex
  · intro a c2 hc2
    simp only at hc2
    by_cases ha : a = sid
    · subst ha
      rw [mapGet_delete_self] at hc2
      cases hc2
    · rw [mapGet_delete_ne _ _ _ ha] at hc2
      exact h4 a c2 hc2

/-- A disconnect preserves the invariant and every `users-update` it emits
is exact. -/
theorem inv_disconnect (s : ServerState) (sid : String) (h : BrokerInv s) :
    BrokerInv (disconnect s sid).1 ∧
      ∀ em ∈ (disconnect s sid).2, usersUpdateExact em (disconnect s sid).1 := by
  cases hc : mapGet s.conns sid with
  | none =>
    constructor
    · simpa [disconnect, hc] using h
    · intro em hem
      simp [disconnect, hc] at hem
  | some c =>
    cases hcr : c.currentRoom with
    | none =>
      have H : ∀ r rm, mapGet s.rooms r = some rm → ¬ JoinedTo s sid r := by
        intro r rm _ hj
        simp [JoinedTo, currentRoomOf, connRoom, hc, hcr] at hj
      constructor
      · simp only [disconnect, hc, hcr]
        exact inv_disconnect_noroom s sid _ h H
      · intro em hem
        simp [disconnect, hc, hcr] at hem
    | some rid =>
      have hrid : ¬ rid = "" := by
        intro hh
        exact h.2.2.2 sid c hc (by rw [hcr, hh])
      cases hrr : mapGet s.rooms rid with
      | none =>
        have H : ∀ r rm, mapGet s.rooms r = some rm → ¬ JoinedTo s sid r := by
          intro r rm hrm hj
          simp only [JoinedTo, currentRoomOf, connRoom, hc, hcr,
            Option.some.injEq] at hj
          subst hj
          rw [hrm] at hrr
          cases hrr
        constructor
        · simp only [disconnect, hc, hcr, if_neg hrid, hrr]
          exact inv_disconnect_noroom s sid _ h H
        · intro em hem
          simp [disconnect, hc, hcr, hrid, hrr] at hem
      | some room =>
        have hI' := inv_disconnect_room s sid rid room c hc hcr hrr
          (s.sio.map (fun p => (p.1, p.2.filter (fun m => !(m == sid))))) h
        constructor
        · simp only [disconnect, hc, hcr, if_neg hrid, hrr]
          exact hI'
        · intro em hem
          simp only [disconnect, hc, hcr, if_neg hrid, hrr, List.mem_cons,
            List.not_mem_nil, or_false] at hem
          rcases hem with hem | hem
          · subst hem
            exact usersUpdateExact_of_not _ _ (by intro r L hh; simp at hh)
          · subst hem
            simp only [disconnect, hc, hcr, if_neg hrid, hrr]
            exact usersUpdate_exact_of_inv _ rid _ hI' (mapGet_set_self _ _ _)

/-- A step that only rewrites non-`users` fields of one registered room and
emits no `users-update` preserves invariant and exactness. -/
theorem inv_room_update_result (s : ServerState) (rid : String) (room room' : Room)
    (hrr : mapGet s.rooms rid = some room) (hu : room'.users = room.users)
    (h : BrokerInv s) (ems : List Emit)
    (hems : ∀ em ∈ ems, ∀ r L, ¬ em = Emit.usersUpdate r L) :
    BrokerInv { s with rooms := mapSet s.rooms rid room' } ∧
      ∀ em ∈ ems, usersUpdateExact em { s with rooms := mapSet s.rooms rid room' } :=
  ⟨inv_set_room s rid room room' hrr hu h,
   fun em hem => usersUpdateExact_of_not _ _ (hems em hem)⟩

/-- One disciplined step preserves the invariant, and every `users-update`
it emits is exact for the post-state. -/
theorem step_preserves (s : ServerState) (e : Event) (now : Int)
    (h : BrokerInv s) (hd : eventDisciplined s e = true) :
    BrokerInv (step s e now).1 ∧
      ∀ em ∈ (step s e now).2, usersUpdateExact em (step s e now).1 := by
  cases e with
  | connect sid =>
    refine ⟨inv_connect s sid h, ?_⟩
    intro em hem
    cases hc : mapGet s.conns sid <;> simp [step, connect, hc] at hem
  | joinRoom sid r u c =>
    simp only [eventDisciplined, Bool.and_eq_true] at hd
    refine inv_joinRoom s sid r u c h hd.1 ?_
    intro hh
    rw [hh] at hd
    simp at hd
  | disconnect sid => exact inv_disconnect s sid h
  | draw sid d =>
    cases hc : mapGet s.conns sid with
    | none =>
      exact ⟨by simpa [step, draw, hc] using h,
             by intro em hem; simp [step, draw, hc] at hem⟩
    | some c =>
      cases hcr : c.currentRoom with
      | none =>
        exact ⟨by simpa [step, draw, hc, hcr] using h,
               by intro em hem; simp [step, draw, hc, hcr] at hem⟩
      | some rid =>
        by_cases hrid : rid = ""
        · subst hrid
          exact ⟨by simpa [step, draw, hc, hcr] using h,
                 by intro em hem; simp [step, draw, hc, hcr] at hem⟩
        · cases hrr : mapGet s.rooms rid with
          | none =>
            exact ⟨by simpa [step, draw, hc, hcr, hrid, hrr] using h,
                   by intro em hem; simp [step, draw, hc, hcr, hrid, hrr] at hem⟩
          | some room =>
            simp only [step, draw, hc, hcr, if_neg hrid, hrr]
            refine inv_room_update_result s rid room _ hrr ?_ h
              [Emit.drawPeers rid sid d]
              (by intro em hem r L; simp only [List.mem_singleton] at hem
                  subst hem; simp)
            rfl
  | drawText sid d =>
    cases hc : mapGet s.conns sid with
    | none =>
      exact ⟨by simpa [step, drawText, hc] using h,
             by intro em hem; simp [step, drawText, hc] at hem⟩
    | some c =>
      cases hcr : c.currentRoom with
      | none =>
        exact ⟨by simpa [step, drawText, hc, hcr] using h,
               by intro em hem; simp [step, drawText, hc, hcr] at hem⟩
      | some rid =>
        by_cases hrid : rid = ""
        · subst hrid
          exact ⟨by simpa [step, drawText, hc, hcr] using h,
                 by intro em hem; simp [step, drawText, hc, hcr] at hem⟩
        · cases hrr : mapGet s.rooms rid with
          | none =>
            exact ⟨by simpa [step, drawText, hc, hcr, hrid, hrr] using h,
                   by intro em hem; simp [step, drawText, hc, hcr, hrid, hrr] at hem⟩
          | some room =>
            simp only [step, drawText, hc, hcr, if_neg hrid, hrr]
            refine inv_room_update_result s rid room _ hrr ?_ h
              [Emit.drawTextPeers rid sid d]
              (by intro em hem r L; simp only [List.mem_singleton] at hem
                  subst hem; simp)
            rfl
  | drawImage sid d =>
    cases hc : mapGet s.conns sid with
    | none =>
      exact ⟨by simpa [step, drawImage, hc] using h,
             by intro em hem; simp [step, drawImage, hc] at hem⟩
    | some c =>
      cases hcr : c.currentRoom with
      | none =>
        exact ⟨by simpa [step, drawImage, hc, hcr] using h,
               by intro em hem; simp [step, drawImage, hc, hcr] at hem⟩
      | some rid =>
        by_cases hrid : rid = ""
        · subst hrid
          exact ⟨by simpa [step, drawImage, hc, hcr] using h,
                 by intro em hem; simp [step, drawImage, hc, hcr] at hem⟩
        · cases hrr : mapGet s.rooms rid with
          | none =>
            exact ⟨by simpa [step, drawImage, hc, hcr, hrid, hrr] using h,
                   by intro em hem; simp [step, drawImage, hc, hcr, hrid, hrr] at hem⟩
          | some room =>
            simp only [step, drawImage, hc, hcr, if_neg hrid, hrr]
            refine inv_room_update_result s rid room _ hrr ?_ h
              [Emit.drawImagePeers rid sid d]
              (by intro em hem r L; simp only [List.mem_singleton] at hem
                  subst hem; simp)
            rfl
  | cursorMove sid x y =>
    cases hc : mapGet s.conns sid with
    | none =>
      exact ⟨by simpa [step, cursorMove, hc] using h,
             by intro em hem; simp [step, cursorMove, hc] at hem⟩
    | some c =>
      cases hcr : c.currentRoom with
      | none =>
        exact ⟨by simpa [step, cursorMove, hc, hcr] using h,
               by intro em hem; simp [step, cursorMove, hc, hcr] at hem⟩
      | some rid =>
        by_cases hrid : rid = ""
        · subst hrid
          exact ⟨by simpa [step, cursorMove, hc, hcr] using h,
                 by intro em hem; simp [step, cursorMove, hc, hcr] at hem⟩
        · cases hrr : mapGet s.rooms rid with
          | none =>
            exact ⟨by simpa [step, cursorMove, hc, hcr, hrid, hrr] using h,
                   by intro em hem;
                      simp [step, cursorMove, hc, hcr, hrid, hrr] at hem⟩
          | some room =>
            simp only [step, cursorMove, hc, hcr, if_neg hrid, hrr]
            refine inv_room_update_result s rid room _ hrr ?_ h
              [Emit.cursorPeers rid sid
                { userId := sid, username := c.currentUsername,
                  color := c.currentColor, x := x, y := y }]
              (by intro em hem r L; simp only [List.mem_singleton] at hem
                  subst hem; simp)
            rfl
  | clearCanvas sid =>
    cases hc : mapGet s.conns sid with
    | none =>
      exact ⟨by simpa [step, clearCanvas, hc] using h,
             by intro em hem; simp [step, clearCanvas, hc] at hem⟩
    | some c =>
      cases hcr : c.currentRoom with
      | none =>
        exact ⟨by simpa [step, clearCanvas, hc, hcr] using h,
               by intro em hem; simp [step, clearCanvas, hc, hcr] at hem⟩
      | some rid =>
        cases hrr : mapGet s.rooms rid with
        | none =>
          exact ⟨by simpa [step, clearCanvas, hc, hcr, hrr] using h,
                 by intro em hem; simp [step, clearCanvas, hc, hcr, hrr] at hem⟩
        | some room =>
          simp only [step, clearCanvas, hc, hcr, hrr]
          refine inv_room_update_result s rid room _ hrr ?_ h
            [Emit.clearAll rid]
            (by intro em hem r L; simp only [List.mem_singleton] at hem
                subst hem; simp)
          rfl
  | saveCanvas sid url =>
    cases hc : mapGet s.conns sid with
    | none =>
      exact ⟨by simpa [step, saveCanvas, hc] using h,
             by intro em hem; simp [step, saveCanvas, hc] at hem⟩
    | some c =>
      cases hcr : c.currentRoom with
      | none =>
        exact ⟨by simpa [step, saveCanvas, hc, hcr] using h,
               by intro em hem; simp [step, saveCanvas, hc, hcr] at hem⟩
      | some rid =>
        by_cases hrid : rid = ""
        · subst hrid
          exact ⟨by simpa [step, saveCanvas, hc, hcr] using h,
                 by intro em hem; simp [step, saveCanvas, hc, hcr] at hem⟩
        · cases hrr : mapGet s.rooms rid with
          | none =>
            exact ⟨by simpa [step, saveCanvas, hc, hcr, hrid, hrr] using h,
                   by intro em hem;
                      simp [step, saveCanvas, hc, hcr, hrid, hrr] at hem⟩
          | some room =>
            simp only [step, saveCanvas, hc, hcr, if_neg hrid, hrr]
            refine inv_room_update_result s rid room _ hrr ?_ h []
              (by intro em hem; simp at hem)
            rfl
  | requestCanvasState sid =>
    cases hc : mapGet s.conns sid with
    | none =>
      exact ⟨by simpa [step, requestCanvasState, hc] using h,
             by intro em hem; simp [step, requestCanvasState, hc] at hem⟩
    | some c =>
      cases hcr : c.currentRoom with
      | none =>
        exact ⟨by simpa [step, requestCanvasState, hc, hcr] using h,
               by intro em hem; simp [step, requestCanvasState, hc, hcr] at hem⟩
      | some rid =>
        cases hrr : mapGet s.rooms rid with
        | none =>
          exact ⟨by simpa [step, requestCanvasState, hc, hcr, hrr] using h,
                 by intro em hem;
                    simp [step, requestCanvasState, hc, hcr, hrr] at hem⟩
        | some room =>
          refine ⟨by simpa [step, requestCanvasState, hc, hcr, hrr] using h, ?_⟩
          intro em hem
          simp only [step, requestCanvasState, hc, hcr, hrr] at hem ⊢
          refine usersUpdateExact_of_not _ _ ?_
          rcases hst : room.state with _ | blob
          · rw [hst] at hem
            simp at hem
          · rw [hst] at hem
            by_cases hb : blob == ""
            · simp [hb] at hem
            · simp [hb] at hem
              subst hem
              intro r L hh
              simp at hh
  | ping sid =>
    refine ⟨by simpa [step] using h, ?_⟩
    intro em hem
    simp only [step] at hem ⊢
    cases hc : mapGet s.conns sid with
    | none => rw [hc] at hem; simp at hem
    | some c =>
      rw [hc] at hem
      simp only [List.mem_singleton] at hem
      subst hem
      exact usersUpdateExact_of_not _ _ (by intro r L hh; simp at hh)

/-- Along any disciplined trace every step keeps the invariant, and every
`users-update` emitted is exact for the state right after its step. -/
theorem stepsFrom_inv_exact (es : List Event) (s : ServerState) (n : Nat)
    (hI : BrokerInv s) (hd : disciplinedFrom s n es = true) :
    ∀ p ∈ stepsFrom s n es, BrokerInv p.1 ∧ ∀ em ∈ p.2, usersUpdateExact em p.1 := by
  induction es generalizing s n with
  | nil => intro p hp; simp [stepsFrom] at hp
  | cons e es ih =>
    simp only [disciplinedFrom, Bool.and_eq_true] at hd
    obtain ⟨hd1, hd2⟩ := hd
    have hstep := step_preserves s e (Int.ofNat n) hI hd1
    intro p hp
    simp only [stepsFrom, List.mem_cons] at hp
    rcases hp with rfl | hp
    · exact hstep
    · exact ih (step s e (Int.ofNat n)).1 (n + 1) hstep.1 hd2 p hp

theorem presenceInv_initState : PresenceInv initState := by
  refine ⟨?_, ?_, ?_⟩ <;> intro r room h <;> simp [initState, mapGet] at h

theorem presence_join_common (s : ServerState) (sid roomId username color : String)
    (h : PresenceInv s)
    (rooms₀ : List (String × Room)) (room : Room)
    (K1 : ∀ r, ¬ r = roomId → mapGet rooms₀ r = mapGet s.rooms r)
    (KC : ∀ a, a ∈ keysOf room.cursors → a ∈ keysOf room.users)
    (KJ : ∀ a, JoinedTo s a roomId → a ∈ keysOf room.users)
    (sio' : List (String × List String)) :
    PresenceInv (ServerState.mk
      (mapSet rooms₀ roomId
        { room with users := mapSet room.users sid (joinPart sid username color) })
      (mapSet s.conns sid (joinConn roomId username color))
      sio') := by
  obtain ⟨hC, hJ, hE⟩ := h
  refine ⟨?_, ?_, ?_⟩
  · intro r rm hrm a ha
    simp only at hrm
    by_cases hrr : r = roomId
    · subst hrr
      rw [mapGet_set_self] at hrm
      simp only [Option.some.injEq] at hrm
      subst hrm
      simp only at ha ⊢
      rw [mem_keysOf_set]
      exact Or.inr (KC a ha)
    · rw [mapGet_set_ne _ _ _ _ hrr, K1 r hrr] at hrm
      exact hC r rm hrm a ha
  · intro r rm hrm a ha
    simp only at hrm
    simp only [JoinedTo, currentRoomOf] at ha
    by_cases hrr : r = roomId
    · subst hrr
      rw [mapGet_set_self] at hrm
      simp only [Option.some.injEq] at hrm
      subst hrm
      simp only
      rw [mem_keysOf_set]
      by_cases haa : a = sid
      · exact Or.inl haa
      · rw [connRoom_set_ne _ _ _ _ haa] at ha
        exact Or.inr (KJ a ha)
    · rw [mapGet_set_ne _ _ _ _ hrr, K1 r hrr] at hrm
      by_cases haa : a = sid
      · subst haa
        rw [connRoom_set_self] at ha
        simp only [joinConn, Option.some.injEq] at ha
        exact absurd ha.symm hrr
      · rw [connRoom_set_ne _ _ _ _ haa] at ha
        exact hJ r rm hrm a ha
  · intro a c2 hc2 r hcr2
    simp only at hc2 ⊢
    by_cases ha : a = sid
    · subst ha
      rw [mapGet_set_self] at hc2
      simp only [Option.some.injEq] at hc2
      subst hc2
      simp only [joinConn, Option.some.injEq] at hcr2
      subst hcr2
      rw [mapGet_set_self]
      rfl
    · rw [mapGet_set_ne _ _ _ _ ha] at hc2
      have hex := hE a c2 hc2 r hcr2
      by_cases hrr : r = roomId
      · subst hrr
        rw [mapGet_set_self]
        rfl
      · rw [mapGet_set_ne _ _ _ _ hrr, K1 r hrr]
        exact hex

theorem presence_delete_conn (s : ServerState) (sid : String)
    (sio' : List (String × List String)) (h : PresenceInv s) :
    PresenceInv (ServerState.mk s.rooms (mapDelete s.conns sid) sio') := by
  obtain ⟨hC, hJ, hE⟩ := h
  refine ⟨?_, ?_, ?_⟩
  · intro r rm hrm a ha
    exact hC r rm hrm a ha
  · intro r rm hrm a ha
    simp only at hrm
    simp only [JoinedTo, currentRoomOf] at ha
    by_cases haa : a = sid
    · subst haa
      rw [connRoom_delete_self] at ha
      cases ha
    · rw [connRoom_delete_ne _ _ _ haa] at ha
      exact hJ r rm hrm a ha
  · intro a c2 hc2 r hcr2
    simp only at hc2 ⊢
    by_cases ha : a = sid
    · subst ha
      rw [mapGet_delete_self] at hc2
      cases hc2
    · rw [mapGet_delete_ne _ _ _ ha] at hc2
      exact hE a c2 hc2 r hcr2

theorem presence_disconnect_room (s : ServerState) (sid rid : String) (room : Room)
    (hrr : mapGet s.rooms rid = some room)
    (sio' : List (String × List String)) (h : PresenceInv s) :
    PresenceInv (ServerState.mk
      (mapSet s.rooms rid
        { room with users := mapDelete room.users sid,
                    cursors := mapDelete room.cursors sid })
      (mapDelete s.conns sid) sio') := by
  obtain ⟨hC, hJ, hE⟩ := h
  refine ⟨?_, ?_, ?_⟩
  · intro r rm hrm a ha
    simp only at hrm
    by_cases hr2 : r = rid
    · subst hr2
      rw [mapGet_set_self] at hrm
      simp only [Option.some.injEq] at hrm
      subst hrm
      simp only at ha ⊢
      rw [mem_keysOf_delete] at ha ⊢
      exact ⟨ha.1, hC r room hrr a ha.2⟩
    · rw [mapGet_set_ne _ _ _ _ hr2] at hrm
      exact hC r rm hrm a ha
  · intro r rm hrm a ha
    simp only at hrm
    simp only [JoinedTo, currentRoomOf] at ha
    by_cases haa : a = sid
    · subst haa
      rw [connRoom_delete_self] at ha
      cases ha
    · rw [connRoom_delete_ne _ _ _ haa] at ha
      by_cases hr2 : r = rid
      · subst hr2
        rw [mapGet_set_self] at hrm
        simp only [Option.some.injEq] at hrm
        subst hrm
        simp only
        rw [mem_keysOf_delete]
        exact ⟨haa, hJ r room hrr a ha⟩
      · rw [mapGet_set_ne _ _ _ _ hr2] at hrm
        exact hJ r rm hrm a ha
  · intro a c2 hc2 r hcr2
    simp only at hc2 ⊢
    by_cases ha : a = sid
    · subst ha
      rw [mapGet_delete_self] at hc2
      cases hc2
    · rw [mapGet_delete_ne _ _ _ ha] at hc2
      have hex := hE a c2 hc2 r hcr2
      by_cases hr2 : r = rid
      · subst hr2
        rw [mapGet_set_self]
        rfl
      · rw [mapGet_set_ne _ _ _ _ hr2]
        exact hex

theorem presence_set_room (s : ServerState) (rid : String) (room room' : Room)
    (hr : mapGet s.rooms rid = some room)
    (hu : room'.users = room.users)
    (hcur : ∀ a, a ∈ keysOf room'.cursors → a ∈ keysOf room.users)
    (h : PresenceInv s) :
    PresenceInv { s with rooms := mapSet s.rooms rid room' } := by
  obtain ⟨hC, hJ, hE⟩ := h
  refine ⟨?_, ?_, ?_⟩
  · intro r rm hrm a ha
    simp only at hrm
    by_cases hr2 : r = rid
    · subst hr2
      rw [mapGet_set_self] at hrm
      simp only [Option.some.injEq] at hrm
      subst hrm
      rw [hu]
      exact hcur a ha
    · rw [mapGet_set_ne _ _ _ _ hr2] at hrm
      exact hC r rm hrm a ha
  · intro r rm hrm a ha
    simp only at hrm
    by_cases hr2 : r = rid
    · subst hr2
      rw [mapGet_set_self] at hrm
      simp only [Option.some.injEq] at hrm
      subst hrm
      rw [hu]
      exact hJ r room hr a ha
    · rw [mapGet_set_ne _ _ _ _ hr2] at hrm
      exact hJ r rm hrm a ha
  · intro a c2 hc2 r hcr2
    simp only at hc2 ⊢
    have hex := hE a c2 hc2 r hcr2
    by_cases hr2 : r = rid
    · subst hr2
      rw [mapGet_set_self]
      rfl
    · rw [mapGet_set_ne _ _ _ _ hr2]
      exact hex

/-- Every event — including a join from an already-joined connection —
preserves the presence invariant. -/
theorem presence_step (s : ServerState) (e : Event) (now : Int)
    (h : PresenceInv s) : PresenceInv (step s e now).1 := by
  obtain ⟨hC, hJ, hE⟩ := h
  cases e with
  | connect sid =>
    cases hc : mapGet s.conns sid with
    | some c => simpa [step, connect, hc] using ⟨hC, hJ, hE⟩
    | none =>
      simp only [step, connect, hc]
      refine ⟨?_, ?_, ?_⟩
      · intro r rm hrm a ha
        exact hC r rm hrm a ha
      · intro r rm hrm a ha
        simp only [JoinedTo, currentRoomOf] at ha
        by_cases haa : a = sid
        · subst haa
          rw [connRoom_set_self] at ha
          cases ha
        · rw [connRoom_set_ne _ _ _ _ haa] at ha
          exact hJ r rm hrm a ha
      · intro a c2 hc2 r hcr2
        simp only at hc2 ⊢
        by_cases ha : a = sid
        · subst ha
          rw [mapGet_set_self] at hc2
          simp only [Option.some.injEq] at hc2
          subst hc2
          cases hcr2
        · rw [mapGet_set_ne _ _ _ _ ha] at hc2
          exact hE a c2 hc2 r hcr2
  | joinRoom sid roomId u col =>
    cases hc : mapGet s.conns sid with
    | none => simpa [joinRoom, step, hc] using ⟨hC, hJ, hE⟩
    | some c =>
      cases hr : mapGet s.rooms roomId with
      | some room₀ =>
        simp only [step, joinRoom, hc, hr]
        exact presence_join_common s sid roomId u col ⟨hC, hJ, hE⟩ s.rooms room₀
          (fun r _ => rfl) (hC roomId room₀ hr) (hJ roomId room₀ hr) _
      | none =>
        simp only [step, joinRoom, hc, hr]
        refine presence_join_common s sid roomId u col ⟨hC, hJ, hE⟩ _ initRoom
          (fun r hrr => mapGet_set_ne _ _ _ _ hrr) ?_ ?_ _
        · intro a ha
          simp [initRoom, keysOf] at ha
        · intro a ha
          simp only [JoinedTo, currentRoomOf, connRoom] at ha
          cases hca : mapGet s.conns a with
          | none => simp [hca] at ha
          | some c2 =>
            simp only [hca] at ha
            have hex := hE a c2 hca roomId ha
            rw [hr] at hex
            cases hex
  | disconnect sid =>
    cases hc : mapGet s.conns sid with
    | none => simpa [step, disconnect, hc] using ⟨hC, hJ, hE⟩
    | some c =>
      cases hcr : c.currentRoom with
      | none =>
        simp only [step, disconnect, hc, hcr]
        exact presence_delete_conn s sid _ ⟨hC, hJ, hE⟩
      | some rid =>
        by_cases hrid : rid = ""
        · subst hrid
          simp only [step, disconnect, hc, hcr, if_pos rfl]
          exact presence_delete_conn s sid _ ⟨hC, hJ, hE⟩
        · cases hrr : mapGet s.rooms rid with
          | none =>
            simp only [step, disconnect, hc, hcr, if_neg hrid, hrr]
            exact presence_delete_conn s sid _ ⟨hC, hJ, hE⟩
          | some room =>
            simp only [step, disconnect, hc, hcr, if_neg hrid, hrr]
            exact presence_disconnect_room s sid rid room hrr _ ⟨hC, hJ, hE⟩
  | draw sid d =>
    cases hc : mapGet s.conns sid with
    | none => simpa [step, draw, hc] using ⟨hC, hJ, hE⟩
    | some c =>
      cases hcr : c.currentRoom with
      | none => simpa [step, draw, hc, hcr] using ⟨hC, hJ, hE⟩
      | some rid =>
        by_cases hrid : rid = ""
        · subst hrid
          simpa [step, draw, hc, hcr] using ⟨hC, hJ, hE⟩
        · cases hrr : mapGet s.rooms rid with
          | none => simpa [step, draw, hc, hcr, hrid, hrr] using ⟨hC, hJ, hE⟩
          | some room =>
            simp only [step, draw, hc, hcr, if_neg hrid, hrr]
            refine presence_set_room s rid room _ hrr ?_ ?_ ⟨hC, hJ, hE⟩
            · rfl
            · exact hC rid room hrr
  | drawText sid d =>
    cases hc : mapGet s.conns sid with
    | none => simpa [step, drawText, hc] using ⟨hC, hJ, hE⟩
    | some c =>
      cases hcr : c.currentRoom with
      | none => simpa [step, drawText, hc, hcr] using ⟨hC, hJ, hE⟩
      | some rid =>
        by_cases hrid : rid = ""
        · subst hrid
          simpa [step, drawText, hc, hcr] using ⟨hC, hJ, hE⟩
        · cases hrr : mapGet s.rooms rid with
          | none => simpa [step, drawText, hc, hcr, hrid, hrr] using ⟨hC, hJ, hE⟩
          | some room =>
            simp only [step, drawText, hc, hcr, if_neg hrid, hrr]
            refine presence_set_room s rid room _ hrr ?_ ?_ ⟨hC, hJ, hE⟩
            · rfl
            · exact hC rid room hrr
  | drawImage sid d =>
    cases hc : mapGet s.conns sid with
    | none => simpa [step, drawImage, hc] using ⟨hC, hJ, hE⟩
    | some c =>
      cases hcr : c.currentRoom with
      | none => simpa [step, drawImage, hc, hcr] using ⟨hC, hJ, hE⟩
      | some rid =>
        by_cases hrid : rid = ""
        · subst hrid
          simpa [step, drawImage, hc, hcr] using ⟨hC, hJ, hE⟩
        · cases hrr : mapGet s.rooms rid with
          | none => simpa [step, drawImage, hc, hcr, hrid, hrr] using ⟨hC, hJ, hE⟩
          | some room =>
            simp only [step, drawImage, hc, hcr, if_neg hrid, hrr]
            refine presence_set_room s rid room _ hrr ?_ ?_ ⟨hC, hJ, hE⟩
            · rfl
            · exact hC rid room hrr
  | cursorMove sid x y =>
    cases hc : mapGet s.conns sid with
    | none => simpa [step, cursorMove, hc] using ⟨hC, hJ, hE⟩
    | some c =>
      cases hcr : c.currentRoom with
      | none => simpa [step, cursorMove, hc, hcr] using ⟨hC, hJ, hE⟩
      | some rid =>
        by_cases hrid : rid = ""
        · subst hrid
          simpa [step, cursorMove, hc, hcr] using ⟨hC, hJ, hE⟩
        · cases hrr : mapGet s.rooms rid with
          | none => simpa [step, cursorMove, hc, hcr, hrid, hrr] using ⟨hC, hJ, hE⟩
          | some room =>
            simp only [step, cursorMove, hc, hcr, if_neg hrid, hrr]
            refine presence_set_room s rid room _ hrr ?_ ?_ ⟨hC, hJ, hE⟩
            · rfl
            · intro a ha
              simp only at ha
              rw [mem_keysOf_set] at ha
              rcases ha with rfl | ha
              · refine hJ rid room hrr a ?_
                simp [JoinedTo, currentRoomOf, connRoom, hc, hcr]
              · exact hC rid room hrr a ha
  | clearCanvas sid =>
    cases hc : mapGet s.conns sid with
    | none => simpa [step, clearCanvas, hc] using ⟨hC, hJ, hE⟩
    | some c =>
      cases hcr : c.currentRoom with
      | none => simpa [step, clearCanvas, hc, hcr] using ⟨hC, hJ, hE⟩
      | some rid =>
        cases hrr : mapGet s.rooms rid with
        | none => simpa [step, clearCanvas, hc, hcr, hrr] using ⟨hC, hJ, hE⟩
        | some room =>
          simp only [step, clearCanvas, hc, hcr, hrr]
          refine presence_set_room s rid room _ hrr ?_ ?_ ⟨hC, hJ, hE⟩
          · rfl
          · exact hC rid room hrr
  | saveCanvas sid url =>
    cases hc : mapGet s.conns sid with
    | none => simpa [step, saveCanvas, hc] using ⟨hC, hJ, hE⟩
    | some c =>
      cases hcr : c.currentRoom with
      | none => simpa [step, saveCanvas, hc, hcr] using ⟨hC, hJ, hE⟩
      | some rid =>
        by_cases hrid : rid = ""
        · subst hrid
          simpa [step, saveCanvas, hc, hcr] using ⟨hC, hJ, hE⟩
        · cases hrr : mapGet s.rooms rid with
          | none => simpa [step, saveCanvas, hc, hcr, hrid, hrr] using ⟨hC, hJ, hE⟩
          | some room =>
            simp only [step, saveCanvas, hc, hcr, if_neg hrid, hrr]
            refine presence_set_room s rid room _ hrr ?_ ?_ ⟨hC, hJ, hE⟩
            · rfl
            · exact hC rid room hrr
  | requestCanvasState sid =>
    cases hc : mapGet s.conns sid with
    | none => simpa [step, requestCanvasState, hc] using ⟨hC, hJ, hE⟩
    | some c =>
      cases hcr : c.currentRoom with
      | none => simpa [step, requestCanvasState, hc, hcr] using ⟨hC, hJ, hE⟩
      | some rid =>
        cases hrr : mapGet s.rooms rid with
        | none => simpa [step, requestCanvasState, hc, hcr, hrr] using ⟨hC, hJ, hE⟩
        | some room =>
          simpa [step, requestCanvasState, hc, hcr, hrr] using ⟨hC, hJ, hE⟩
  | ping sid => simpa [step] using ⟨hC, hJ, hE⟩

/-- The presence invariant holds after any trace from startup. -/
theorem presence_runFrom (es : List Event) (s : ServerState) (n : Nat)
    (h : PresenceInv s) : PresenceInv (runFrom s n es) := by
  induction es generalizing s n with
  | nil => simpa [runFrom] using h
  | cons e es ih =>
    simp only [runFrom]
    exact ih (step s e (Int.ofNat n)).1 (n + 1) (presence_step s e (Int.ofNat n) h)

/-- C3 as stated is false: after A joins r1, B joins r1, A joins r2 (the
join handler has no already-joined guard) and B disconnects, the
`users-update` broadcast for r1 still lists A, although A is currently
joined to r2, not r1. -/
theorem usersUpdate_not_always_exact : ¬ usersUpdateAlwaysExact := by
  intro h
  have hp : (traceSteps doubleJoinTrace).get ⟨5, by decide⟩ ∈ traceSteps doubleJoinTrace :=
    List.get_mem _ _ _
  have hem : Emit.usersUpdate "r1" [{ username := "alice", color := "#f00", id := "A" }] ∈
      ((traceSteps doubleJoinTrace).get ⟨5, by decide⟩).2 := by decide
  have hiff := h doubleJoinTrace _ hp _ hem "r1" _ rfl "A"
  have hjoined := hiff.mp (by decide)
  have hnot : ¬ JoinedTo ((traceSteps doubleJoinTrace).get ⟨5, by decide⟩).1 "A" "r1" := by
    decide
  exact hnot hjoined

/-- **C3** (amended): for every trace of events in which no connection
issues `join-room` while already joined and no `join-room` names the
falsy empty-string room id, the `users-update` broadcast emitted at each
step lists exactly the connections currently joined to that room — no
connection appears unless currently joined there, and every currently
joined connection appears.  Both restrictions are forced by the code: the
join handler has no already-joined guard, so a second join leaves a stale
entry in the old room's member map (`usersUpdate_not_always_exact`); and
the disconnect handler's truthiness guard `if (currentRoom)` skips
membership cleanup for a connection joined to `""`, so that room too
accumulates stale members (`usersUpdate_inexact_after_emptyId_join`). -/
theorem c3_users_update_exact (es : List Event)
    (hd : disciplinedFrom initState 0 es = true) :
    ∀ p ∈ traceSteps es, ∀ em ∈ p.2, usersUpdateExact em p.1 := by
  intro p hp
  exact (stepsFrom_inv_exact es initState 0 brokerInv_initState hd p hp).2

theorem c3_users_update_exact_witness :
    "A" ∈ ([{ username := "alice", color := "#f00", id := "A" }] :
        List Participant).map Participant.id ↔
      JoinedTo ((traceSteps [Event.connect "A",
        Event.joinRoom "A" "r1" "alice" "#f00"]).getD 1 (initState, [])).1 "A" "r1" :=
  c3_users_update_exact [Event.connect "A", Event.joinRoom "A" "r1" "alice" "#f00"]
    (by decide)
    ((traceSteps [Event.connect "A", Event.joinRoom "A" "r1" "alice" "#f00"]).getD 1
      (initState, []))
    (by decide)
    (Emit.usersUpdate "r1" [{ username := "alice", color := "#f00", id := "A" }])
    (by decide)
    "r1" [{ username := "alice", color := "#f00", id := "A" }] rfl "A"

/-- **C10**: in every reachable broker state and for every registered room,
the connection ids with a cursor entry are a subset of the room's member
ids; since this holds after an arbitrary event trace, every operation
preserves the inclusion. -/
theorem c10_cursors_subset_members (es : List Event) (r : String) (room : Room)
    (hr : mapGet (run es).rooms r = some room) :
    ∀ sid, sid ∈ keysOf room.cursors → sid ∈ keysOf room.users :=
  (presence_runFrom es initState 0 presenceInv_initState).1 r room hr

theorem c10_cursors_subset_members_witness : "A" ∈ keysOf c10WitnessRoom.users :=
  c10_cursors_subset_members
    [Event.connect "A", Event.joinRoom "A" "r1" "alice" "red",
     Event.cursorMove "A" 1 2]
    "r1" c10WitnessRoom (by decide) "A" (by decide)

/-- **C1** (code bug): when the only member of room "r" disconnects, the
handler arms the 5-minute cleanup timer (line 226), but the timer callback
(lines 227-233) begins with `const currentRoom = rooms.get(currentRoom)`,
shadowing the outer variable and reading the new `const` inside its own
initializer — a temporal-dead-zone `ReferenceError`.  The callback throws
before reaching `rooms.delete`, so the empty room is never removed from
the registry, contrary to the claim (and to the code's own comment and
log message). -/
theorem c1_empty_room_never_deleted :
    timerArmedAfterDisconnect
        (run [Event.connect "A", Event.joinRoom "A" "r" "alice" "#f00"]) "A" = true
    ∧ mapGet (run [Event.connect "A", Event.joinRoom "A" "r" "alice" "#f00",
          Event.disconnect "A"]).rooms "r"
        = some { users := [], history := [], state := none, cursors := [] }
    ∧ emptyRoomTimerFire
        (run [Event.connect "A", Event.joinRoom "A" "r" "alice" "#f00",
          Event.disconnect "A"]).rooms
        = Except.error
            "ReferenceError: Cannot access currentRoom before initialization" :=
  ⟨by decide, by decide, rfl⟩

/-- C2 as stated is false: after A joins r1, a further `join-room` to r2 is
processed (the handler has no already-joined guard) and A's current room
becomes r2. -/
theorem second_join_not_noop : ¬ secondJoinIsNoOp := by
  intro h
  exact absurd
    (h [Event.connect "A", Event.joinRoom "A" "r1" "alice" "#f00"]
      "A" "r2" "alice" "#f00" (by decide)).1
    (by decide)

/-- **C2** (amended): a `join-room` sent while already joined is processed
like any other join, not rejected: the connection's current room switches
to the new room, the connection is added to the new room's members, and
its entry in the old room's members is *not* removed (it stays behind as a
stale member). -/
theorem second_join_switches_room (s : ServerState) (sid rid u col r₀ : String)
    (c : Conn) (hc : mapGet s.conns sid = some c)
    (_hr₀ : c.currentRoom = some r₀) (hne : ¬ r₀ = rid)
    (hin : sid ∈ usersKeysOf s r₀) :
    currentRoomOf (joinRoom s sid rid u col).1 sid = some rid
    ∧ sid ∈ usersKeysOf (joinRoom s sid rid u col).1 rid
    ∧ sid ∈ usersKeysOf (joinRoom s sid rid u col).1 r₀ := by
  cases hr : mapGet s.rooms rid with
  | some room₀ =>
    simp only [joinRoom, hc, hr]
    refine ⟨?_, ?_, ?_⟩
    · simp [currentRoomOf, connRoom_set_self]
    · simp only [usersKeysOf, mapGet_set_self]
      rw [mem_keysOf_set]
      exact Or.inl rfl
    · simp only [usersKeysOf]
      rw [mapGet_set_ne _ _ _ _ hne]
      simpa [usersKeysOf] using hin
  | none =>
    simp only [joinRoom, hc, hr]
    refine ⟨?_, ?_, ?_⟩
    · simp [currentRoomOf, connRoom_set_self]
    · simp only [usersKeysOf, mapGet_set_self]
      rw [mem_keysOf_set]
      exact Or.inl rfl
    · simp only [usersKeysOf]
      rw [mapGet_set_ne _ _ _ _ hne, mapGet_set_ne _ _ _ _ hne]
      simpa [usersKeysOf] using hin

theorem second_join_switches_room_witness :
    currentRoomOf (joinRoom (run [Event.connect "A",
        Event.joinRoom "A" "r1" "alice" "#f00"]) "A" "r2" "alice" "#f00").1 "A"
      = some "r2"
    ∧ "A" ∈ usersKeysOf (joinRoom (run [Event.connect "A",
        Event.joinRoom "A" "r1" "alice" "#f00"]) "A" "r2" "alice" "#f00").1 "r2"
    ∧ "A" ∈ usersKeysOf (joinRoom (run [Event.connect "A",
        Event.joinRoom "A" "r1" "alice" "#f00"]) "A" "r2" "alice" "#f00").1 "r1" :=
  second_join_switches_room
    (run [Event.connect "A", Event.joinRoom "A" "r1" "alice" "#f00"])
    "A" "r2" "alice" "#f00" "r1"
    { currentRoom := some "r1", currentUsername := some "alice",
      currentColor := some "#f00" }
    (by decide) rfl (by decide) (by decide)

/-- C4 as stated is false: the draw handler broadcasts the inbound payload
unmodified (`socket.to(room).emit('draw', data)`), so the payload B
receives is exactly `{x: 1, y: 2}` with no `userId` field. -/
theorem draw_broadcast_lacks_userId : ¬ drawBroadcastHasUserId := by
  intro h
  have := h (Emit.drawPeers "r1" "A" drawXY) (by decide) "r1" "A" drawXY rfl
  exact absurd this (by decide)

/-- **C4** (amended): in the scenario — A and B joined to r1, A sends
`draw {x:1,y:2}` — the only emission is the peer broadcast of the
*unmodified* payload (B, a member of the socket.io room other than A,
receives `{x:1,y:2}` with no `userId` added), and the room's history gains
exactly one entry with no `type` field (freehand default) and
`userId = "A"`. -/
theorem c4_draw_scenario :
    (step (run drawScenarioPrefix) (.draw "A" drawXY) 4).2
      = [Emit.drawPeers "r1" "A" drawXY]
    ∧ "B" ∈ sioMembers (run drawScenarioPrefix) "r1"
    ∧ ¬ "B" = "A"
    ∧ Obj.get drawXY "userId" = none
    ∧ historyOf (step (run drawScenarioPrefix) (.draw "A" drawXY) 4).1 "r1"
        = [drawEntry drawXY 4 "A" (some "alice")]
    ∧ Obj.get (drawEntry drawXY 4 "A" (some "alice")) "type" = none
    ∧ Obj.get (drawEntry drawXY 4 "A" (some "alice")) "userId"
        = some (JVal.str "A") := by
  refine ⟨by decide, by decide, by decide, by decide, by decide, by decide, by decide⟩

/-- C5 as stated is false: the handler builds
`{type: 'text', ...data, ...}` with the spread *after* the tag, so a
payload carrying its own `type` (here `"shout"`) overrides the tag. -/
theorem drawText_tag_overridden : ¬ drawTextAlwaysTagsText := by
  intro h
  have := h (run [Event.connect "A", Event.joinRoom "A" "r1" "alice" "#f00"])
    "A" [("type", JVal.str "shout")] 2 "r1"
    { users := [("A", { username := "alice", color := "#f00", id := "A" })],
      history := [], state := none, cursors := [] }
    { users := [("A", { username := "alice", color := "#f00", id := "A" })],
      history := [textEntry [("type", JVal.str "shout")] 2 "A" (some "alice")],
      state := none, cursors := [] }
    (by decide) (by decide) (by decide)
    (textEntry [("type", JVal.str "shout")] 2 "A" (some "alice")) (by decide)
  exact absurd this (by decide)

/-- **C5** (amended): for every `draw-text` accepted from a joined
connection — one whose current room id is truthy (non-empty), since the
falsiness guard `if (!currentRoom) return;` drops the event otherwise —
whose payload does *not* itself carry a `type` field, the appended
history entry is tagged `type = "text"`; a payload's own `type` field
overrides the tag (see `drawText_tag_overridden`). -/
theorem c5_drawText_tags_text (s : ServerState) (sid : String) (data : Obj)
    (now : Int) (rid : String) (room : Room)
    (h1 : currentRoomOf s sid = some rid)
    (hrid : ¬ rid = "")
    (h2 : mapGet s.rooms rid = some room)
    (h3 : Obj.get data "type" = none) :
    historyOf (drawText s sid data now).1 rid
      = historyOf s rid ++ [textEntry data now sid (usernameOf s sid)]
    ∧ Obj.get (textEntry data now sid (usernameOf s sid)) "type"
        = some (JVal.str "text") := by
  simp only [currentRoomOf, connRoom] at h1
  cases hc : mapGet s.conns sid with
  | none => rw [hc] at h1; cases h1
  | some c =>
    rw [hc] at h1
    simp only at h1
    have hu : usernameOf s sid = c.currentUsername := by simp [usernameOf, hc]
    constructor
    · rw [hu]
      simp only [drawText, hc, h1, if_neg hrid, h2, historyOf, mapGet_set_self]
    · have hsuf : Obj.get [("timestamp", JVal.num now), ("userId", JVal.str sid),
          ("username", jOfOpt (usernameOf s sid))] "type" = none := by
        simp [Obj.get]
      simp only [textEntry, Obj.get, Obj.get_append, hsuf, h3]
      simp

theorem c5_drawText_tags_text_witness :
    (historyOf (drawText (run [Event.connect "A",
          Event.joinRoom "A" "r1" "alice" "#f00"]) "A"
        [("text", JVal.str "hi")] 2).1 "r1"
      = historyOf (run [Event.connect "A", Event.joinRoom "A" "r1" "alice" "#f00"])
          "r1"
        ++ [textEntry [("text", JVal.str "hi")] 2 "A"
            (usernameOf (run [Event.connect "A",
              Event.joinRoom "A" "r1" "alice" "#f00"]) "A")])
    ∧ Obj.get (textEntry [("text", JVal.str "hi")] 2 "A"
        (usernameOf (run [Event.connect "A",
          Event.joinRoom "A" "r1" "alice" "#f00"]) "A")) "type"
      = some (JVal.str "text") :=
  c5_drawText_tags_text _ "A" [("text", JVal.str "hi")] 2 "r1"
    { users := [("A", { username := "alice", color := "#f00", id := "A" })],
      history := [], state := none, cursors := [] }
    (by decide) (by decide) (by decide) (by decide)

/-- **C7**: every `draw-image` accepted from a joined connection — one
whose current room id is truthy (non-empty), since the falsiness guard
`if (!currentRoom) return;` drops the event otherwise — appends to
history an entry holding only the variant tag, the bounding geometry
`x`/`y`/`width`/`height`, the timestamp and the attribution — never the
`imageData` pixel payload — while the peer broadcast carries the full
original payload (including `imageData`). -/
theorem c7_draw_image_history_geometry_only (s : ServerState) (sid : String)
    (data : Obj) (now : Int) (rid : String) (room : Room)
    (h1 : currentRoomOf s sid = some rid)
    (hrid : ¬ rid = "")
    (h2 : mapGet s.rooms rid = some room) :
    historyOf (drawImage s sid data now).1 rid
      = historyOf s rid ++ [imageEntry data now sid (usernameOf s sid)]
    ∧ Obj.keys (imageEntry data now sid (usernameOf s sid))
        = ["type", "x", "y", "width", "height", "timestamp", "userId", "username"]
    ∧ Obj.get (imageEntry data now sid (usernameOf s sid)) "imageData" = none
    ∧ (drawImage s sid data now).2 = [Emit.drawImagePeers rid sid data] := by
  simp only [currentRoomOf, connRoom] at h1
  cases hc : mapGet s.conns sid with
  | none => rw [hc] at h1; cases h1
  | some c =>
    rw [hc] at h1
    simp only at h1
    have hu : usernameOf s sid = c.currentUsername := by simp [usernameOf, hc]
    refine ⟨?_, ?_, ?_, ?_⟩
    · rw [hu]
      simp only [drawImage, hc, h1, if_neg hrid, h2, historyOf,
        mapGet_set_self]
    · simp [imageEntry, Obj.keys]
    · simp [imageEntry, Obj.get]
    · simp only [drawImage, hc, h1, if_neg hrid, h2]

theorem c7_draw_image_witness :
    historyOf (drawImage (run [Event.connect "A",
        Event.joinRoom "A" "r1" "alice" "#f00"]) "A"
        [("x", JVal.num 3), ("y", JVal.num 4), ("width", JVal.num 10),
         ("height", JVal.num 5), ("imageData", JVal.str "PIXELS")] 2).1 "r1"
      = historyOf (run [Event.connect "A", Event.joinRoom "A" "r1" "alice" "#f00"])
          "r1"
        ++ [imageEntry [("x", JVal.num 3), ("y", JVal.num 4),
            ("width", JVal.num 10), ("height", JVal.num 5),
            ("imageData", JVal.str "PIXELS")] 2 "A"
            (usernameOf (run [Event.connect "A",
              Event.joinRoom "A" "r1" "alice" "#f00"]) "A")]
    ∧ Obj.keys (imageEntry [("x", JVal.num 3), ("y", JVal.num 4),
          ("width", JVal.num 10), ("height", JVal.num 5),
          ("imageData", JVal.str "PIXELS")] 2 "A"
          (usernameOf (run [Event.connect "A",
            Event.joinRoom "A" "r1" "alice" "#f00"]) "A"))
        = ["type", "x", "y", "width", "height", "timestamp", "userId", "username"]
    ∧ Obj.get (imageEntry [("x", JVal.num 3), ("y", JVal.num 4),
          ("width", JVal.num 10), ("height", JVal.num 5),
          ("imageData", JVal.str "PIXELS")] 2 "A"
          (usernameOf (run [Event.connect "A",
            Event.joinRoom "A" "r1" "alice" "#f00"]) "A")) "imageData" = none
    ∧ (drawImage (run [Event.connect "A",
          Event.joinRoom "A" "r1" "alice" "#f00"]) "A"
          [("x", JVal.num 3), ("y", JVal.num 4), ("width", JVal.num 10),
           ("height", JVal.num 5), ("imageData", JVal.str "PIXELS")] 2).2
        = [Emit.drawImagePeers "r1" "A"
            [("x", JVal.num 3), ("y", JVal.num 4), ("width", JVal.num 10),
             ("height", JVal.num 5), ("imageData", JVal.str "PIXELS")]] :=
  c7_draw_image_history_geometry_only _ "A"
    [("x", JVal.num 3), ("y", JVal.num 4), ("width", JVal.num 10),
     ("height", JVal.num 5), ("imageData", JVal.str "PIXELS")] 2 "r1"
    { users := [("A", { username := "alice", color := "#f00", id := "A" })],
      history := [], state := none, cursors := [] }
    (by decide) (by decide) (by decide)

/-- **C9**: every operation event (`draw`, `draw-text`, `draw-image`,
`cursor-move`, `clear-canvas`, `save-canvas`, `request-canvas-state`)
arriving from a connection in the unjoined state is silently ignored: the
broker state is unchanged and nothing is emitted to anyone. -/
theorem c9_unjoined_ops_ignored (s : ServerState) (sid : String) (data : Obj)
    (x y : Int) (url : String) (now : Int)
    (h : currentRoomOf s sid = none) :
    ∀ e ∈ opEvents sid data x y url, step s e now = (s, []) := by
  simp only [currentRoomOf, connRoom] at h
  intro e he
  simp only [opEvents, List.mem_cons, List.not_mem_nil, or_false] at he
  cases hc : mapGet s.conns sid with
  | none =>
    rcases he with rfl | rfl | rfl | rfl | rfl | rfl | rfl <;>
      simp [step, draw, drawText, drawImage, cursorMove, clearCanvas,
        saveCanvas, requestCanvasState, hc]
  | some c =>
    rw [hc] at h
    simp only at h
    rcases he with rfl | rfl | rfl | rfl | rfl | rfl | rfl <;>
      simp [step, draw, drawText, drawImage, cursorMove, clearCanvas,
        saveCanvas, requestCanvasState, hc, h]

theorem c9_unjoined_ops_ignored_witness :
    step (run [Event.connect "A"]) (Event.clearCanvas "A") 1
      = (run [Event.connect "A"], []) :=
  c9_unjoined_ops_ignored (run [Event.connect "A"]) "A" [("x", JVal.num 1)]
    0 0 "png" 1 (by decide) (Event.clearCanvas "A") (by decide)

/-- One step preserves blankness of the `""` room: all history/state
writers sit behind the falsiness guard on `currentRoom`, and the join and
clear handlers can only leave the `""` room blank. -/
theorem blankEmptyRoom_step (s : ServerState) (e : Event) (now : Int)
    (h : BlankEmptyRoom s) : BlankEmptyRoom (step s e now).1 := by
  cases e with
  | connect sid =>
    cases hc : mapGet s.conns sid with
    | some c =>
      simp only [step, connect, hc]
      exact h
    | none =>
      simp only [step, connect, hc]
      intro room hroom
      exact h room hroom
  | joinRoom sid roomId u col =>
    cases hc : mapGet s.conns sid with
    | none =>
      simp only [step, joinRoom, hc]
      exact h
    | some c =>
      cases hr : mapGet s.rooms roomId with
      | some room₀ =>
        simp only [step, joinRoom, hc, hr]
        intro rm hrm
        simp only at hrm
        by_cases hb : roomId = ""
        · subst hb
          rw [mapGet_set_self] at hrm
          simp only [Option.some.injEq] at hrm
          subst hrm
          exact h room₀ hr
        · rw [mapGet_set_ne _ _ _ _ (fun hh => hb hh.symm)] at hrm
          exact h rm hrm
      | none =>
        simp only [step, joinRoom, hc, hr]
        intro rm hrm
        simp only at hrm
        by_cases hb : roomId = ""
        · subst hb
          rw [mapGet_set_self] at hrm
          simp only [Option.some.injEq] at hrm
          subst hrm
          exact ⟨rfl, rfl⟩
        · rw [mapGet_set_ne _ _ _ _ (fun hh => hb hh.symm),
              mapGet_set_ne _ _ _ _ (fun hh => hb hh.symm)] at hrm
          exact h rm hrm
  | draw sid d =>
    cases hc : mapGet s.conns sid with
    | none => simpa [step, draw, hc] using h
    | some c =>
      cases hcr : c.currentRoom with
      | none => simpa [step, draw, hc, hcr] using h
      | some rid =>
        by_cases hrid : rid = ""
        · subst hrid
          simpa [step, draw, hc, hcr] using h
        · cases hrr : mapGet s.rooms rid with
          | none => simpa [step, draw, hc, hcr, hrid, hrr] using h
          | some room =>
            simp only [step, draw, hc, hcr, if_neg hrid, hrr]
            intro rm hrm
            simp only at hrm
            rw [mapGet_set_ne _ _ _ _ (fun hh => hrid hh.symm)] at hrm
            exact h rm hrm
  | drawText sid d =>
    cases hc : mapGet s.conns sid with
    | none => simpa [step, drawText, hc] using h
    | some c =>
      cases hcr : c.currentRoom with
      | none => simpa [step, drawText, hc, hcr] using h
      | some rid =>
        by_cases hrid : rid = ""
        · subst hrid
          simpa [step, drawText, hc, hcr] using h
        · cases hrr : mapGet s.rooms rid with
          | none => simpa [step, drawText, hc, hcr, hrid, hrr] using h
          | some room =>
            simp only [step, drawText, hc, hcr, if_neg hrid, hrr]
            intro rm hrm
            simp only at hrm
            rw [mapGet_set_ne _ _ _ _ (fun hh => hrid hh.symm)] at hrm
            exact h rm hrm
  | drawImage sid d =>
    cases hc : mapGet s.conns sid with
    | none => simpa [step, drawImage, hc] using h
    | some c =>
      cases hcr : c.currentRoom with
      | none => simpa [step, drawImage, hc, hcr] using h
      | some rid =>
        by_cases hrid : rid = ""
        · subst hrid
          simpa [step, drawImage, hc, hcr] using h
        · cases hrr : mapGet s.rooms rid with
          | none => simpa [step, drawImage, hc, hcr, hrid, hrr] using h
          | some room =>
            simp only [step, drawImage, hc, hcr, if_neg hrid, hrr]
            intro rm hrm
            simp only at hrm
            rw [mapGet_set_ne _ _ _ _ (fun hh => hrid hh.symm)] at hrm
            exact h rm hrm
  | cursorMove sid x y =>
    cases hc : mapGet s.conns sid with
    | none => simpa [step, cursorMove, hc] using h
    | some c =>
      cases hcr : c.currentRoom with
      | none => simpa [step, cursorMove, hc, hcr] using h
      | some rid =>
        by_cases hrid : rid = ""
        · subst hrid
          simpa [step, cursorMove, hc, hcr] using h
        · cases hrr : mapGet s.rooms rid with
          | none => simpa [step, cursorMove, hc, hcr, hrid, hrr] using h
          | some room =>
            simp only [step, cursorMove, hc, hcr, if_neg hrid, hrr]
            intro rm hrm
            simp only at hrm
            rw [mapGet_set_ne _ _ _ _ (fun hh => hrid hh.symm)] at hrm
            exact h rm hrm
  | clearCanvas sid =>
    cases hc : mapGet s.conns sid with
    | none => simpa [step, clearCanvas, hc] using h
    | some c =>
      cases hcr : c.currentRoom with
      | none => simpa [step, clearCanvas, hc, hcr] using h
      | some rid =>
        cases hrr : mapGet s.rooms rid with
        | none => simpa [step, clearCanvas, hc, hcr, hrr] using h
        | some room =>
          simp only [step, clearCanvas, hc, hcr, hrr]
          intro rm hrm
          simp only at hrm
          by_cases hrid : rid = ""
          · subst hrid
            rw [mapGet_set_self] at hrm
            simp only [Option.some.injEq] at hrm
            subst hrm
            exact ⟨rfl, rfl⟩
          · rw [mapGet_set_ne _ _ _ _ (fun hh => hrid hh.symm)] at hrm
            exact h rm hrm
  | saveCanvas sid url =>
    cases hc : mapGet s.conns sid with
    | none => simpa [step, saveCanvas, hc] using h
    | some c =>
      cases hcr : c.currentRoom with
      | none => simpa [step, saveCanvas, hc, hcr] using h
      | some rid =>
        by_cases hrid : rid = ""
        · subst hrid
          simpa [step, saveCanvas, hc, hcr] using h
        · cases hrr : mapGet s.rooms rid with
          | none => simpa [step, saveCanvas, hc, hcr, hrid, hrr] using h
          | some room =>
            simp only [step, saveCanvas, hc, hcr, if_neg hrid, hrr]
            intro rm hrm
            simp only at hrm
            rw [mapGet_set_ne _ _ _ _ (fun hh => hrid hh.symm)] at hrm
            exact h rm hrm
  | requestCanvasState sid =>
    cases hc : mapGet s.conns sid with
    | none => simpa [step, requestCanvasState, hc] using h
    | some c =>
      cases hcr : c.currentRoom with
      | none => simpa [step, requestCanvasState, hc, hcr] using h
      | some rid =>
        cases hrr : mapGet s.rooms rid with
        | none => simpa [step, requestCanvasState, hc, hcr, hrr] using h
        | some room => simpa [step, requestCanvasState, hc, hcr, hrr] using h
  | ping sid => simpa [step] using h
  | disconnect sid =>
    cases hc : mapGet s.conns sid with
    | none => simpa [step, disconnect, hc] using h
    | some c =>
      cases hcr : c.currentRoom with
      | none =>
        simp only [step, disconnect, hc, hcr]
        intro rm hrm
        exact h rm hrm
      | some rid =>
        by_cases hrid : rid = ""
        · subst hrid
          simp only [step, disconnect, hc, hcr, if_pos rfl]
          intro rm hrm
          exact h rm hrm
        · cases hrr : mapGet s.rooms rid with
          | none =>
            simp only [step, disconnect, hc, hcr, if_neg hrid, hrr]
            intro rm hrm
            exact h rm hrm
          | some room =>
            simp only [step, disconnect, hc, hcr, if_neg hrid, hrr]
            intro rm hrm
            simp only at hrm
            rw [mapGet_set_ne _ _ _ _ (fun hh => hrid hh.symm)] at hrm
            exact h rm hrm

/-- In every reachable state, a room registered under the empty-string id
holds no history and no snapshot.  This is the fact that makes the
null-only rendering of the guards in `clearCanvas` and
`requestCanvasState` observationally faithful. -/
theorem blankEmptyRoom_run (es : List Event) : BlankEmptyRoom (run es) := by
  suffices hs : ∀ (s : ServerState) (n : Nat), BlankEmptyRoom s →
      BlankEmptyRoom (runFrom s n es) by
    refine hs initState 0 ?_
    intro room hroom
    simp [initState, mapGet] at hroom
  induction es with
  | nil =>
    intro s n hs
    simpa [runFrom] using hs
  | cons e es ih =>
    intro s n hs
    simp only [runFrom]
    exact ih (step s e (Int.ofNat n)).1 (n + 1) (blankEmptyRoom_step s e (Int.ofNat n) hs)

/-- The second restriction in the amended C3 is also forced by the code:
along `emptyIdJoinTrace` — which contains no join from an already-joined
connection — the `users-update` broadcast at B's join to room `""` lists
the disconnected A, because A's disconnect hit the falsy-`""` branch of
`if (currentRoom)` and removed nothing. -/
theorem usersUpdate_inexact_after_emptyId_join :
    ¬ ∀ p ∈ traceSteps emptyIdJoinTrace, ∀ em ∈ p.2, usersUpdateExact em p.1 := by
  intro h
  have hp : (traceSteps emptyIdJoinTrace).get ⟨4, by decide⟩ ∈
      traceSteps emptyIdJoinTrace :=
    List.get_mem _ _ _
  have hem : Emit.usersUpdate ""
      [{ username := "alice", color := "#f00", id := "A" },
       { username := "bob", color := "#00f", id := "B" }] ∈
      ((traceSteps emptyIdJoinTrace).get ⟨4, by decide⟩).2 := by decide
  have hiff := h _ hp _ hem "" _ rfl "A"
  have hjoined := hiff.mp (by decide)
  have hnot : ¬ JoinedTo ((traceSteps emptyIdJoinTrace).get ⟨4, by decide⟩).1
      "A" "" := by decide
  exact hnot hjoined
